import Mathlib

/-!
# SKUD attendance ledger: a shallow embedding of the Apps Script and of main.js

The development follows `src/AttendanceScript.js` (the spreadsheet script:
`doPost`, `generateMonthlyReport`, `calculateHours`, `closeUnfinishedDays`)
and `src/SKUD_Python/static/js/main.js` (the front-end `calculateHours`).

Conventions of the embedding.

* A JavaScript string is a list of characters (`Str`).
* A JavaScript number is the rational it denotes; every arithmetic operation
  is the exact operation followed by `rn`, rounding to the nearest IEEE-754
  binary64 value (ties to even).  `NaN` is `none` in an `Option ℚ`.
  Overflow to infinity and subnormal numbers are outside the model.
* A `Date` is its time value, an integer number of milliseconds since the
  epoch; an invalid date is `none`.
* What the hosting platform decides (how `new Date(string)` reads a string,
  the day names of pattern letter `E`, the script time zone) is the
  parameter `Platform`; every general theorem holds for every platform.
* The sheet is a grid of string cells, `[]` being the empty cell; a thrown
  exception is the outcome `Outcome.exception`.
-/

namespace SKUD

/-! ## Strings -/

/-- A JavaScript string. -/
abbrev Str := List Char

/-- The method `String.prototype.includes`. -/
def includes : Str → Str → Bool
  | [], sub => sub.isEmpty
  | c :: cs, sub => sub.isPrefixOf (c :: cs) || includes cs sub

/-- The scanning loop of `String.prototype.split` for a non-empty separator:
`skip` counts the separator characters still to be passed over, `cur` is the
piece being read, reversed. -/
def splitGo (sep : Str) : Str → Nat → Str → List Str
  | [], _, cur => [cur.reverse]
  | _ :: cs, skip + 1, cur => splitGo sep cs skip cur
  | c :: cs, 0, cur =>
      if sep.isPrefixOf (c :: cs) then cur.reverse :: splitGo sep cs (sep.length - 1) []
      else splitGo sep cs 0 (c :: cur)

/-- The method `String.prototype.split(sep)` for a non-empty separator. -/
def split (s sep : Str) : List Str := splitGo sep s 0 []

/-- The method `Array.prototype.indexOf` on an array of strings; `none` is `-1`. -/
def indexOf (v : Str) : List Str → Option Nat
  | [] => none
  | x :: xs => if x = v then some 0 else (indexOf v xs).map (· + 1)

/-- String concatenation with a value that may be `undefined`. -/
def orUndefined (o : Option Str) : Str := o.getD "undefined".toList

/-- The white space of `\s` and of the numeric conversions. -/
def isJsSpace (c : Char) : Bool :=
  let n := c.toNat
  (9 ≤ n && n ≤ 13) || n = 32 || n = 160 || n = 5760 || (8192 ≤ n && n ≤ 8202) ||
    n = 8232 || n = 8233 || n = 8239 || n = 8287 || n = 12288 || n = 65279

/-- The class `\d`. -/
def isDigit (c : Char) : Bool := 48 ≤ c.toNat && c.toNat ≤ 57

/-- The decimal digit character of `k`. -/
def digitChar (k : Nat) : Char :=
  match k with
  | 0 => '0' | 1 => '1' | 2 => '2' | 3 => '3' | 4 => '4'
  | 5 => '5' | 6 => '6' | 7 => '7' | 8 => '8' | _ => '9'

/-- Two-digit, zero-padded decimal text (pattern letters `MM`, `dd`, `HH`, `mm`, `ss`). -/
def pad2 (n : Nat) : Str := [digitChar (n / 10 % 10), digitChar (n % 10)]

/-- Value of a run of decimal digits read left to right, starting from `acc`. -/
def digitsValue (acc : Nat) : Str → Nat
  | [] => acc
  | c :: cs => digitsValue (10 * acc + (c.toNat - 48)) cs

/-! ## Numbers -/

/-- Floor of the base-2 logarithm, by halving; `fuel` bounds the number of halvings. -/
def ilog2Aux : Nat → Nat → Nat
  | 0, _ => 0
  | fuel + 1, n => if n < 2 then 0 else ilog2Aux fuel (n / 2) + 1

/-- Floor of the base-2 logarithm of a positive natural number. -/
def ilog2 (n : Nat) : Nat := ilog2Aux n n

/-- The power `2 ^ e` for an integer exponent. -/
def pow2 (e : ℤ) : ℚ :=
  match e with
  | Int.ofNat n => ((2 ^ n : ℕ) : ℚ)
  | Int.negSucc n => 1 / ((2 ^ (n + 1) : ℕ) : ℚ)

/-- Nearest integer, ties to the even one. -/
def roundHalfEven (x : ℚ) : ℤ :=
  let f : ℤ := x.num / (x.den : ℤ)
  let r : ℤ := x.num % (x.den : ℤ)
  if 2 * r < (x.den : ℤ) then f
  else if (x.den : ℤ) < 2 * r then f + 1
  else if f % 2 = 0 then f else f + 1

/-- Binary exponent of a positive rational: the `e` with `2 ^ e ≤ x < 2 ^ (e + 1)`. -/
def binExp (x : ℚ) : ℤ :=
  let e0 : ℤ := (ilog2 x.num.natAbs : ℤ) - (ilog2 x.den : ℤ)
  if x < pow2 e0 then e0 - 1 else e0

/-- Rounding to the nearest binary64 number (53 significant bits, ties to even). -/
def rn (x : ℚ) : ℚ :=
  if x = 0 then 0
  else
    let u : ℚ := pow2 (binExp |x| - 52)
    (roundHalfEven (x / u) : ℚ) * u

/-- The operator `+` on numbers. -/
def jsAdd (a b : ℚ) : ℚ := rn (a + b)

/-- The operator `-` on numbers. -/
def jsSub (a b : ℚ) : ℚ := rn (a - b)

/-- The operator `*` on numbers. -/
def jsMul (a b : ℚ) : ℚ := rn (a * b)

/-- The operator `/` on numbers, for a non-zero divisor. -/
def jsDiv (a b : ℚ) : ℚ := rn (a / b)

/-- The function `Math.round`: nearest integer, ties upwards. -/
def mathRound (x : ℚ) : ℚ := ((⌊x + 1 / 2⌋ : ℤ) : ℚ)

/-- The function `parseInt(s, 10)`: leading white space, an optional sign, then the
longest run of decimal digits; `none` is `NaN`.  The integer read is taken
exactly (it is below `2 ^ 53` for every input the theorems use). -/
def parseInt (s : Str) : Option ℤ :=
  let t := s.dropWhile isJsSpace
  let neg : Bool := t.head? = some '-'
  let u := if t.head? = some '-' ∨ t.head? = some '+' then t.tail else t
  let ds := u.takeWhile isDigit
  if ds = [] then none
  else some (if neg then -((digitsValue 0 ds : ℕ) : ℤ) else ((digitsValue 0 ds : ℕ) : ℤ))

/-- The function `Number` on a string, restricted to what the front-end passes it:
white space is trimmed, the empty string is `0`, a run of decimal digits is
its value, and anything else is `NaN` (`none`).  Signs, fractions, exponents
and hexadecimal literals are not modelled. -/
def jsNumber (s : Str) : Option ℚ :=
  let t := ((s.dropWhile isJsSpace).reverse.dropWhile isJsSpace).reverse
  if t = [] then some 0
  else if t.all isDigit then some (rn ((digitsValue 0 t : ℕ) : ℚ))
  else none

/-! ## Dates -/

/-- The zone `"GMT+3"` passed to `Utilities.formatDate`, in milliseconds. -/
def GMT3 : ℤ := 10800000

/-- Milliseconds in a day. -/
def msPerDay : ℤ := 86400000

/-- Day number (days since 1970-01-01) of time value `t` in the zone at offset `off`. -/
def dayNumber (off t : ℤ) : ℤ := (t + off) / msPerDay

/-- Milliseconds since local midnight of time value `t` in the zone at offset `off`. -/
def msOfDay (off t : ℤ) : ℤ := (t + off) % msPerDay

/-- Hour of the day, `0..23`. -/
def hourOf (off t : ℤ) : Nat := (msOfDay off t / 3600000).toNat

/-- Minute of the hour, `0..59`. -/
def minuteOf (off t : ℤ) : Nat := (msOfDay off t / 60000 % 60).toNat

/-- Second of the minute, `0..59`. -/
def secondOf (off t : ℤ) : Nat := (msOfDay off t / 1000 % 60).toNat

/-- Day of the week of a day number, `0` being Sunday (`Date.prototype.getDay`). -/
def weekdayOf (day : ℤ) : Nat := ((day + 4) % 7).toNat

/-- Year, month (`1..12`) and day of the month (`1..31`) of a day number in the
proleptic Gregorian calendar. -/
def civil (day : ℤ) : ℤ × Nat × Nat :=
  let z := day + 719468
  let era := z / 146097
  let doe := z % 146097
  let yoe := (doe - doe / 1460 + doe / 36524 - doe / 146096) / 365
  let doy := doe - (365 * yoe + yoe / 4 - yoe / 100)
  let mp := (5 * doy + 2) / 153
  let d := doy - (153 * mp + 2) / 5 + 1
  let m := if mp < 10 then mp + 3 else mp - 9
  (if m ≤ 2 then yoe + era * 400 + 1 else yoe + era * 400, m.toNat, d.toNat)

/-- Day number of a civil date (the inverse of `civil`). -/
def daysFromCivil (y : ℤ) (m d : Nat) : ℤ :=
  let y1 := if m ≤ 2 then y - 1 else y
  let era := y1 / 400
  let yoe := y1 % 400
  let mp : ℤ := if m ≤ 2 then (m : ℤ) + 9 else (m : ℤ) - 3
  let doy := (153 * mp + 2) / 5 + (d : ℤ) - 1
  let doe := yoe * 365 + yoe / 4 - yoe / 100 + doy
  era * 146097 + doe - 719468

/-- Pattern `yyyy`: the year of the era, zero-padded to four digits. -/
def yearText (y : ℤ) : Str :=
  let n : Nat := if y ≤ 0 then (1 - y).toNat else y.toNat
  if n < 10000 then pad2 (n / 100) ++ pad2 (n % 100) else Nat.toDigits 10 n

/-- Pattern `yyyy-MM-dd` for a day number. -/
def dateText (day : ℤ) : Str :=
  yearText (civil day).1 ++ '-' :: pad2 (civil day).2.1 ++ '-' :: pad2 (civil day).2.2

/-- The call `Utilities.formatDate(t, "GMT+3", "yyyy-MM-dd")`. -/
def formatDate (t : ℤ) : Str := dateText (dayNumber GMT3 t)

/-- The call `Utilities.formatDate(t, "GMT+3", "HH:mm")`. -/
def formatTime (t : ℤ) : Str := pad2 (hourOf GMT3 t) ++ ':' :: pad2 (minuteOf GMT3 t)

/-- The call `Utilities.formatDate(t, "GMT+3", "HH:mm:ss")`. -/
def formatTimeSec (t : ℤ) : Str :=
  pad2 (hourOf GMT3 t) ++ ':' :: pad2 (minuteOf GMT3 t) ++ ':' :: pad2 (secondOf GMT3 t)

/-- What the hosting platform decides. -/
structure Platform where
  /-- The time value `new Date(s)` reads from a string, `none` for an invalid date. -/
  parse : Str → Option ℤ
  /-- The text of pattern letter `E` for each `getDay` value. -/
  dayName : Nat → Str
  /-- The offset of the script time zone from UTC in milliseconds (no daylight saving). -/
  zone : ℤ

/-- The constructor `new Date(s)` on a string: the empty string and every time value
beyond 8.64e15 ms give an invalid date. -/
def newDate (P : Platform) (s : Str) : Option ℤ :=
  if s = [] then none
  else match P.parse s with
    | some t => if -8640000000000000 ≤ t ∧ t ≤ 8640000000000000 then some t else none
    | none => none

/-- The call `Utilities.formatDate(t, "GMT+3", "E yyyy-MM-dd")`: the header of a date column. -/
def formatHeader (P : Platform) (t : ℤ) : Str :=
  P.dayName (weekdayOf (dayNumber GMT3 t)) ++ ' ' :: formatDate t

/-! ## The spreadsheet and the property store -/

/-- The sheet `Attendance`: a grid of `rows` by `cols` string cells, rows and columns
counted from 1; `[]` is the empty cell. -/
structure Sheet where
  rows : Nat
  cols : Nat
  cell : Nat → Nat → Str

/-- The call `getRange(r, c).getValue()`. -/
def Sheet.getValue (s : Sheet) (r c : Nat) : Str :=
  if 1 ≤ r ∧ r ≤ s.rows ∧ 1 ≤ c ∧ c ≤ s.cols then s.cell r c else []

/-- The call `getRange(r, c).setValue(v)`; the grid grows to hold the cell. -/
def Sheet.setValue (s : Sheet) (r c : Nat) (v : Str) : Sheet :=
  { rows := max s.rows r
    cols := max s.cols c
    cell := fun i j => if i = r ∧ j = c then v else s.getValue i j }

/-- The largest `k` in `1..n` with `p k`, or `0`. -/
def lastIndexWhere (p : Nat → Bool) : Nat → Nat
  | 0 => 0
  | n + 1 => if p (n + 1) then n + 1 else lastIndexWhere p n

/-- Whether `p k` for some `k` in `1..n`. -/
def anyUpTo (p : Nat → Bool) : Nat → Bool
  | 0 => false
  | n + 1 => p (n + 1) || anyUpTo p n

/-- The call `getLastRow()`: the last row that has content. -/
def Sheet.getLastRow (s : Sheet) : Nat :=
  lastIndexWhere (fun r => anyUpTo (fun c => !(s.getValue r c).isEmpty) s.cols) s.rows

/-- The call `getLastColumn()`: the last column that has content. -/
def Sheet.getLastColumn (s : Sheet) : Nat :=
  lastIndexWhere (fun c => anyUpTo (fun r => !(s.getValue r c).isEmpty) s.rows) s.cols

/-- The sheet with no content. -/
def Sheet.empty : Sheet := { rows := 0, cols := 0, cell := fun _ _ => [] }

/-- The script properties: `getProperty` returns `null` (`none`) for a missing key. -/
abbrev Properties := Str → Option Str

/-- The call `setProperty(key, value)`. -/
def setProperty (p : Properties) (key value : Str) : Properties :=
  fun k => if k = key then some value else p k

/-- The state the script works on. -/
structure State where
  sheet : Sheet
  props : Properties

/-! ## `AttendanceScript.js`: constants -/

/-- The constant `EMPLOYEES` (lines 1-4): key serial, employee name. -/
def EMPLOYEES : List (Str × Str) :=
  [("0102030405060708".toList, "Иванов".toList),
   ("0908070605040302".toList, "Петров".toList)]

/-- The constant `MIN_INTERVAL_MINUTES` (line 6). -/
def MIN_INTERVAL_MINUTES : ℚ := 1

/-- The constant `WEEKEND_DAYS` (line 7). -/
def WEEKEND_DAYS : List Nat := [0, 6]

/-- The constant `DEFAULT_END_TIME` (line 8). -/
def DEFAULT_END_TIME : Str := "17:00".toList

/-- The members every object literal inherits from `Object.prototype`. -/
def objectPrototypeMembers : List Str :=
  ["constructor".toList, "hasOwnProperty".toList, "isPrototypeOf".toList,
   "propertyIsEnumerable".toList, "toLocaleString".toList, "toString".toList,
   "valueOf".toList, "__proto__".toList, "__defineGetter__".toList,
   "__defineSetter__".toList, "__lookupGetter__".toList, "__lookupSetter__".toList]

/-- What `EMPLOYEES[serial]` evaluates to when `serial in EMPLOYEES` holds. -/
inductive Member where
  /-- An own property: the employee name. -/
  | name (s : Str)
  /-- A member inherited from `Object.prototype`: a function or an object, not a string. -/
  | inherited
  deriving DecidableEq

/-- The name registered for a serial: the own properties of `EMPLOYEES`. -/
def employeeOf (serial : Str) : Option Str :=
  (EMPLOYEES.find? (fun p => p.1 = serial)).map (·.2)

/-- The test `serial in EMPLOYEES` (line 17) together with the read `EMPLOYEES[serial]`
(line 23): `none` when the test fails.  The operator `in` follows the prototype
chain, so it also holds for the members inherited from `Object.prototype`. -/
def lookup (serial : Str) : Option Member :=
  match employeeOf serial with
  | some n => some (Member.name n)
  | none => if objectPrototypeMembers.contains serial then some Member.inherited else none

/-- The text `"Приход"`. -/
def strArrival : Str := ['П', 'р', 'и', 'х', 'о', 'д']

/-- The text `"Уход"`. -/
def strDeparture : Str := ['У', 'х', 'о', 'д']

/-- The text `"Уход: -"`. -/
def strOpen : Str := ['У', 'х', 'о', 'д', ':', ' ', '-']

/-- The text `"Приход: " + a + ", Уход: " + d` the script writes into a cell. -/
def cellText (a d : Str) : Str :=
  ['П', 'р', 'и', 'х', 'о', 'д', ':', ' '] ++ a ++ [',', ' ', 'У', 'х', 'о', 'д', ':', ' '] ++ d

/-- The expression `value.split(",")[0].split(": ")[1]` that reads the arrival time of
a cell (lines 79, 148, 298); `none` is `undefined`. -/
def arrivalField (value : Str) : Option Str :=
  (split ((split value [',']).headD []) [':', ' ']).get? 1

/-! ## `doPost` (lines 10-92) -/

/-- The parsed request body: `data.serial` and `data.time`. -/
structure Event where
  serial : Str
  time : Str

/-- The JSON answer of `doPost`, or the exception that ends the call without one. -/
inductive Outcome where
  /-- Answer `{status: "unknown", message}`, line 18. -/
  | unknown (serial : Str)
  /-- Answer `{status: "ignored", message, employee, lastTime}`, line 59. -/
  | ignored (employee lastTime : Str)
  /-- Answer `{status: "success", message, employee, event, time, date}`, line 84. -/
  | success (employee event time date : Str)
  /-- An exception thrown by the platform; no answer is returned. -/
  | exception
  deriving DecidableEq

/-- Lines 30-38: the column of the date header, created when missing.  The headers
read are those of columns `2..getLastColumn()` (a range of no columns is read as
the empty array).  Returns `colIndex` after line 38 and the sheet. -/
def dateColumn (sheet : Sheet) (header : Str) : Nat × Sheet :=
  let headers := (List.range (sheet.getLastColumn - 1)).map (fun k => sheet.getValue 1 (k + 2))
  match indexOf header headers with
  | some colIndex => (colIndex + 2, sheet)
  | none => (sheet.getLastColumn + 2, sheet.setValue 1 (sheet.getLastColumn + 1) header)

/-- Lines 40-49: the row of the employee, created when missing.  The names read are
those of rows `2..getLastRow()`.  Returns `rowIndex` and the sheet. -/
def employeeRow (sheet : Sheet) (name : Str) : Nat × Sheet :=
  let names := (List.range (sheet.getLastRow - 1)).map (fun k => sheet.getValue (k + 2) 1)
  match indexOf name names with
  | some rowIndex => (rowIndex + 2, sheet)
  | none => (sheet.getLastRow + 1, sheet.setValue (sheet.getLastRow + 1) 1 name)

/-- Lines 54-66: the debounce test.  Returns `lastDateTime` when the event is to be
ignored.  A missing or empty property skips the test; an unreadable one makes
`timeDiff` a `NaN`, and `NaN < 1` is false. -/
def debounce (P : Platform) (props : Properties) (lastTimeKey : Str) (dateTime : ℤ) : Option ℤ :=
  match props lastTimeKey with
  | none => none
  | some lastTime =>
    if lastTime = [] then none
    else match newDate P lastTime with
      | none => none
      | some lastDateTime =>
        if jsDiv (jsSub dateTime lastDateTime) (1000 * 60) < MIN_INTERVAL_MINUTES
        then some lastDateTime else none

/-- Lines 69-82: arrival or departure.  Returns the sheet and `eventType`. -/
def recordScan (sheet : Sheet) (rowIndex colIndex : Nat) (timeStr : Str) : Sheet × Str :=
  let currentValue := sheet.getValue rowIndex colIndex
  if currentValue = [] ∨ includes currentValue strArrival = false then
    (sheet.setValue rowIndex colIndex (cellText timeStr ['-']), "приход".toList)
  else
    (sheet.setValue rowIndex colIndex (cellText (orUndefined (arrivalField currentValue)) timeStr),
      "уход".toList)

/-- The function `doPost`.  Two platform calls are modelled as throwing: `formatDate`
on an invalid date (line 27) and `setValue` on a value that is not a string
(line 46, reached with a member inherited from `Object.prototype`, which
`names.indexOf` never finds). -/
def doPost (P : Platform) (st : State) (e : Event) : Outcome × State :=
  match lookup e.serial with
  | none => (Outcome.unknown e.serial, st)
  | some member =>
    match newDate P e.time with
    | none => (Outcome.exception, st)
    | some dateTime =>
      let dateStr := formatDate dateTime
      let timeStr := formatTime dateTime
      let col := dateColumn st.sheet (formatHeader P dateTime)
      match member with
      | Member.inherited => (Outcome.exception, { sheet := col.2, props := st.props })
      | Member.name name =>
        let row := employeeRow col.2 name
        let lastTimeKey := e.serial ++ '_' :: dateStr
        match debounce P st.props lastTimeKey dateTime with
        | some lastDateTime =>
          (Outcome.ignored name (formatTimeSec lastDateTime), { sheet := row.2, props := st.props })
        | none =>
          let rec_ := recordScan row.2 row.1 col.1 timeStr
          (Outcome.success name rec_.2 timeStr dateStr,
            { sheet := rec_.1, props := setProperty st.props lastTimeKey e.time })

/-! ## `calculateHours` of `AttendanceScript.js` (lines 191-210) -/

/-- The call `d.setHours(h, m, 0, 0)` in the script time zone: local midnight of the
day of `date`, plus `h` hours and `m` minutes. -/
def setHours (zone date h m : ℤ) : ℤ := date - msOfDay zone date + h * 3600000 + m * 60000

/-- Lines 192-199 for one of the two times: `new Date(date)`, `time.split(":")`, the two
`parseInt` calls and `setHours`; `none` is an invalid date. -/
def timeOn (zone date : ℤ) (time : Str) : Option ℤ :=
  let parts := split time [':']
  match parseInt (orUndefined (parts.get? 0)), parseInt (orUndefined (parts.get? 1)) with
  | some h, some m => some (setHours zone date h m)
  | _, _ => none

namespace AttendanceScript

/-- The function `calculateHours(date, arrivalTime, departureTime)` of the script;
`none` is `NaN`. -/
def calculateHours (zone date : ℤ) (arrivalTime departureTime : Str) : Option ℚ :=
  match timeOn zone date arrivalTime, timeOn zone date departureTime with
  | some arrivalDate, some departureDate =>
    let departureDate1 :=
      if departureDate < arrivalDate then departureDate + msPerDay else departureDate
    let diffMs := jsSub (departureDate1 : ℚ) (arrivalDate : ℚ)
    some (jsDiv diffMs (1000 * 60 * 60))
  | _, _ => none

end AttendanceScript

/-! ## `calculateHours` of `main.js` (lines 13-32) -/

namespace MainJs

/-- The function `calculateHours(arrival, departure)` of the front-end: `none` is
`null`, `some none` is `NaN`. -/
def calculateHours (arrival departure : Str) : Option (Option ℚ) :=
  if arrival = [] ∨ departure = [] then none
  else
    let a := (split arrival [':']).map jsNumber
    let d := (split departure [':']).map jsNumber
    match a.get? 0, a.get? 1, d.get? 0, d.get? 1 with
    | some (some arrivalHours), some (some arrivalMinutes),
      some (some departureHours), some (some departureMinutes) =>
      let hours := jsSub departureHours arrivalHours
      let minutes := jsSub departureMinutes arrivalMinutes
      let hours1 := if minutes < 0 then jsSub hours 1 else hours
      let minutes1 := if minutes < 0 then jsAdd minutes 60 else minutes
      let hours2 := if hours1 < 0 then jsAdd hours1 24 else hours1
      some (some (jsAdd hours2 (jsDiv minutes1 60)))
    | _, _, _, _ => some none

end MainJs

/-! ## `generateMonthlyReport` (lines 99-182) -/

/-- Whether `\d{4}-\d{2}-\d{2}` matches at the start of the text. -/
def datePatternAt : Str → Bool
  | a :: b :: c :: d :: m1 :: e :: f :: m2 :: g :: h :: _ =>
    isDigit a && isDigit b && isDigit c && isDigit d && m1 = '-' &&
      isDigit e && isDigit f && m2 = '-' && isDigit g && isDigit h
  | _ => false

/-- The test `dateHeader.match(/\d{4}-(\d{2})-(\d{2})/)` of line 138. -/
def hasDatePattern : Str → Bool
  | [] => false
  | c :: cs => datePatternAt (c :: cs) || hasDatePattern cs

/-- The class `[A-Za-zА-Яа-я]`. -/
def isDayLetter (c : Char) : Bool :=
  ('A' ≤ c && c ≤ 'Z') || ('a' ≤ c && c ≤ 'z') || ('А' ≤ c && c ≤ 'Я') || ('а' ≤ c && c ≤ 'я')

/-- The call `dateHeader.replace(/^[A-Za-zА-Яа-я]{1,2}\s/, "")` of line 141: one or two
letters and one white-space character are removed from the start. -/
def stripDayName : Str → Str
  | a :: b :: c :: rest =>
    if isDayLetter a && isDayLetter b && isJsSpace c then rest
    else if isDayLetter a && isJsSpace b then c :: rest
    else a :: b :: c :: rest
  | [a, b] => if isDayLetter a && isJsSpace b then [] else [a, b]
  | s => s

/-- The sum `a + b` of two numbers that may be `NaN`. -/
def numAdd (a b : Option ℚ) : Option ℚ :=
  match a, b with
  | some x, some y => some (jsAdd x y)
  | _, _ => none

/-- The expression `Math.round(x * 10) / 10` of lines 167-170. -/
def round1 (x : Option ℚ) : Option ℚ :=
  x.map (fun v => jsDiv (mathRound (jsMul v 10)) 10)

/-- The three accumulators of the loop over the date columns. -/
structure Totals where
  totalHours : Option ℚ
  weekendHours : Option ℚ
  workDays : Nat
  deriving DecidableEq

/-- One row of the sheet `MonthlyReport` (lines 166-170). -/
structure ReportRow where
  employeeName : Str
  totalHours : Option ℚ
  weekendHours : Option ℚ
  workDays : Nat
  average : Option ℚ
  deriving DecidableEq

/-- The date object of a header when it passes lines 135-142: a non-empty text that
holds the date pattern and, with the day name removed, reads as a date of the
given year and month in the script time zone. -/
def columnDate (P : Platform) (year month : ℤ) (dateHeader : Str) : Option ℤ :=
  if dateHeader = [] then none
  else if hasDatePattern dateHeader = false then none
  else match newDate P (stripDayName dateHeader) with
    | none => none
    | some dateObj =>
      if (civil (dayNumber P.zone dateObj)).1 ≠ year ∨
          ((civil (dayNumber P.zone dateObj)).2.1 : ℤ) ≠ month then none
      else some dateObj

/-- The body of the loop over the date columns (lines 134-162) for one column;
`none` is a `TypeError` (a method called on `undefined`). -/
def columnStep (P : Platform) (year month : ℤ) (acc : Totals) (dateHeader attendance : Str) :
    Option Totals :=
  match columnDate P year month dateHeader with
  | none => some acc
  | some dateObj =>
    if attendance = [] ∨ includes attendance strArrival = false ∨
        includes attendance strDeparture = false then some acc
    else
      let arrivalTime := arrivalField attendance
      match (split attendance [',']).get? 1 with
      | none => none
      | some second =>
        let departureTime := (split second [':', ' ']).get? 1
        if departureTime = some ['-'] then some acc
        else match arrivalTime, departureTime with
          | some a, some d =>
            let hours := AttendanceScript.calculateHours P.zone dateObj a d
            some { totalHours := numAdd acc.totalHours hours
                   weekendHours :=
                     if WEEKEND_DAYS.contains (weekdayOf (dayNumber P.zone dateObj))
                     then numAdd acc.weekendHours hours else acc.weekendHours
                   workDays := acc.workDays + 1 }
          | _, _ => none

/-- The loop over the date columns (line 133), on the pairs header, cell. -/
def scanColumns (P : Platform) (year month : ℤ) : Totals → List (Str × Str) → Option Totals
  | acc, [] => some acc
  | acc, hv :: rest =>
    match columnStep P year month acc hv.1 hv.2 with
    | none => none
    | some acc1 => scanColumns P year month acc1 rest

/-- The header and the cell of row `i + 2` for each column `2..getLastColumn()`
(`headers[j]` and `data[i][j]` for `j ≥ 1`). -/
def columnsOf (sheet : Sheet) (i : Nat) : List (Str × Str) :=
  (List.range (sheet.getLastColumn - 1)).map
    (fun k => (sheet.getValue 1 (k + 2), sheet.getValue (i + 2) (k + 2)))

/-- Lines 166-170: the report row written from the accumulators. -/
def rowOfTotals (employeeName : Str) (t : Totals) : ReportRow :=
  { employeeName := employeeName
    totalHours := round1 t.totalHours
    weekendHours := round1 t.weekendHours
    workDays := t.workDays
    average :=
      if 0 < t.workDays then round1 (t.totalHours.map (fun v => jsDiv v (t.workDays : ℚ)))
      else some 0 }

/-- The loop over the employees (line 124), on the indices `i` of `data`. -/
def reportRows (P : Platform) (year month : ℤ) (sheet : Sheet) : List Nat → Option (List ReportRow)
  | [] => some []
  | i :: rest =>
    if sheet.getValue (i + 2) 1 = [] then reportRows P year month sheet rest
    else
      match scanColumns P year month ⟨some 0, some 0, 0⟩ (columnsOf sheet i) with
      | none => none
      | some t =>
        (reportRows P year month sheet rest).map (rowOfTotals (sheet.getValue (i + 2) 1) t :: ·)

/-- The function `generateMonthlyReport(year, month)`: the rows written below the
header row of `MonthlyReport`; `none` when a `TypeError` ends the call. -/
def generateMonthlyReport (P : Platform) (sheet : Sheet) (year month : ℤ) :
    Option (List ReportRow) :=
  reportRows P year month sheet (List.range (sheet.getLastRow - 1))

/-! ## `closeUnfinishedDays` (lines 269-310) -/

/-- The test of lines 291-292: a non-empty text that includes `"Приход"` and `"Уход: -"`. -/
def isUnfinished (attendance : Str) : Bool :=
  decide (attendance ≠ []) && includes attendance strArrival && includes attendance strOpen

/-- The loop of lines 287-309 over `data`, `i` being the index of the head. -/
def closeRows (colIndex : Nat) : List Str → Nat → Sheet → Sheet
  | [], _, sheet => sheet
  | attendance :: rest, i, sheet =>
    closeRows colIndex rest (i + 1)
      (if isUnfinished attendance = true
       then sheet.setValue (i + 2) (colIndex + 1)
          (cellText (orUndefined (arrivalField attendance)) DEFAULT_END_TIME)
       else sheet)

/-- The function `closeUnfinishedDays`, `today` being the time value of `new Date()`. -/
def closeUnfinishedDays (P : Platform) (today : ℤ) (sheet : Sheet) : Sheet :=
  let dateStr := formatHeader P today
  let headers := (List.range sheet.getLastColumn).map (fun k => sheet.getValue 1 (k + 1))
  match indexOf dateStr headers with
  | none => sheet
  | some colIndex =>
    let data := (List.range (sheet.getLastRow - 1)).map
      (fun i => sheet.getValue (i + 2) (colIndex + 1))
    closeRows colIndex data 0 sheet

/-! ## A concrete platform, for the worked examples -/

/-- Value of two decimal digits. -/
def twoDigits (a b : Char) : Nat := (a.toNat - 48) * 10 + (b.toNat - 48)

/-- A reader for the timestamps the script documents (line 14): `yyyy-MM-dd` is read
as midnight UTC, `yyyy-MM-dd HH:mm` and `yyyy-MM-dd HH:mm:ss` as local time in the
zone at offset `zone`; every other text is an invalid date. -/
def readStamp (zone : ℤ) : Str → Option ℤ
  | y1 :: y2 :: y3 :: y4 :: '-' :: m1 :: m2 :: '-' :: d1 :: d2 :: rest =>
    if isDigit y1 && isDigit y2 && isDigit y3 && isDigit y4 && isDigit m1 && isDigit m2 &&
        isDigit d1 && isDigit d2 then
      let day := daysFromCivil ((twoDigits y1 y2 * 100 + twoDigits y3 y4 : ℕ) : ℤ)
        (twoDigits m1 m2) (twoDigits d1 d2)
      match rest with
      | [] => some (day * msPerDay)
      | [' ', h1, h2, ':', n1, n2] =>
        if isDigit h1 && isDigit h2 && isDigit n1 && isDigit n2 then
          some (day * msPerDay + (twoDigits h1 h2 : ℤ) * 3600000 +
            (twoDigits n1 n2 : ℤ) * 60000 - zone)
        else none
      | [' ', h1, h2, ':', n1, n2, ':', s1, s2] =>
        if isDigit h1 && isDigit h2 && isDigit n1 && isDigit n2 && isDigit s1 && isDigit s2 then
          some (day * msPerDay + (twoDigits h1 h2 : ℤ) * 3600000 +
            (twoDigits n1 n2 : ℤ) * 60000 + (twoDigits s1 s2 : ℤ) * 1000 - zone)
        else none
      | _ => none
    else none
  | _ => none

/-- Two-letter Russian day names, Sunday first. -/
def russianDayName (d : Nat) : Str :=
  match d with
  | 0 => "Вс".toList | 1 => "Пн".toList | 2 => "Вт".toList | 3 => "Ср".toList
  | 4 => "Чт".toList | 5 => "Пт".toList | _ => "Сб".toList

/-- A platform whose script time zone is GMT+3 and whose day names are Russian. -/
def moscow : Platform := { parse := readStamp GMT3, dayName := russianDayName, zone := GMT3 }

/-- A sheet given by its rows, top row first. -/
def Sheet.ofRows (rows : List (List Str)) : Sheet :=
  { rows := rows.length
    cols := (rows.map List.length).foldr max 0
    cell := fun r c => ((rows.get? (r - 1)).getD []).getD (c - 1) [] }

end SKUD

namespace SKUD

/-! ## Notions the statements use -/

/-- The text `HH:MM` of hour `h` and minute `m`. -/
def hhmm (h m : Nat) : Str := pad2 h ++ ':' :: pad2 m

/-- A valid time of day `HH:MM`: hours `00..23`, minutes `00..59`. -/
def isHHMM : Str → Bool
  | [a, b, c, d, e] =>
    isDigit a && isDigit b && c = ':' && isDigit d && isDigit e &&
      decide (twoDigits a b < 24) && decide (twoDigits d e < 60)
  | _ => false

/-- Minutes since midnight of a time of day `HH:MM`. -/
def minutesOfDay : Str → ℤ
  | [a, b, _, d, e] => ((twoDigits a b * 60 + twoDigits d e : ℕ) : ℤ)
  | _ => 0

end SKUD

namespace SKUD

/-- Whether `doPost` accepted the scan: the answer has status `success`. -/
def Outcome.accepted : Outcome → Bool
  | Outcome.success _ _ _ _ => true
  | _ => false

/-- The event kind `"приход"` (arrival). -/
def evArrival : Str := "приход".toList

/-- The event kind `"уход"` (departure). -/
def evDeparture : Str := "уход".toList

/-- The attendance cell of an employee and a date is at row `r`, column `c`: `r` is the
first row from the second on whose first cell is the name, `c` the first column
from the second on whose header is the date header, as `doPost` finds them. -/
def Located (sheet : Sheet) (name header : Str) (r c : Nat) : Prop :=
  2 ≤ r ∧ 2 ≤ c ∧ sheet.getValue r 1 = name ∧ sheet.getValue 1 c = header ∧
    (∀ i, 2 ≤ i → i < r → sheet.getValue i 1 ≠ name) ∧
    (∀ j, 2 ≤ j → j < c → sheet.getValue 1 j ≠ header)

/-- Column `c` is the date column of a header: the first column from the second on whose
header it is, as `doPost` finds it. -/
def DateColumnAt (sheet : Sheet) (header : Str) (c : Nat) : Prop :=
  2 ≤ c ∧ sheet.getValue 1 c = header ∧ ∀ j, 2 ≤ j → j < c → sheet.getValue 1 j ≠ header

/-- Row `r` is the row of an employee: the first row from the second on whose first cell
is the name, as `doPost` finds it, or, when no row has the name, the row after the
last row with content, where `doPost` appends the name. -/
def EmployeeRowAt (sheet : Sheet) (name : Str) (r : Nat) : Prop :=
  (2 ≤ r ∧ sheet.getValue r 1 = name ∧ ∀ i, 2 ≤ i → i < r → sheet.getValue i 1 ≠ name) ∨
  (r = sheet.getLastRow + 1 ∧ ∀ i, 2 ≤ i → sheet.getValue i 1 ≠ name)

/-- A sheet with the column of Tuesday 2025-06-24 and the row of one employee. -/
def sampleSheet : Sheet := Sheet.ofRows
  [["Фамилия".toList, "Вт 2025-06-24".toList],
   ["Иванов".toList, "Приход: 09:00, Уход: 18:00".toList]]

/-- The same sheet with a further, still empty column for Wednesday 2025-06-25. -/
def sampleSheet25 : Sheet := Sheet.ofRows
  [["Фамилия".toList, "Вт 2025-06-24".toList, "Ср 2025-06-25".toList],
   ["Иванов".toList, "Приход: 09:00, Уход: 18:00".toList]]

/-- The property store with no property. -/
def noProps : Properties := fun _ => none

/-- A scan of the first registered key at the given time. -/
def scan (time : String) : Event := { serial := "0102030405060708".toList, time := time.toList }

end SKUD

namespace SKUD

/-- The property store after an accepted scan of the first key at 2025-06-25 08:00. -/
def sampleProps : Properties :=
  setProperty noProps "0102030405060708_2025-06-25".toList "2025-06-25 08:00".toList

end SKUD

namespace SKUD

/-- Column `c` is the column of the current date: the first column whose header is the
header of `today`, as `closeUnfinishedDays` finds it. -/
def TodayColumn (P : Platform) (today : ℤ) (sheet : Sheet) (c : Nat) : Prop :=
  1 ≤ c ∧ sheet.getValue 1 c = formatHeader P today ∧
    ∀ j, 1 ≤ j → j < c → sheet.getValue 1 j ≠ formatHeader P today

end SKUD

namespace SKUD

/-- The sheet of `sampleSheet25` after the arrival of 08:00 on 2025-06-25. -/
def sampleSheetOpen : Sheet := Sheet.ofRows
  [["Фамилия".toList, "Вт 2025-06-24".toList, "Ср 2025-06-25".toList],
   ["Иванов".toList, "Приход: 09:00, Уход: 18:00".toList, "Приход: 08:00, Уход: -".toList]]

/-- A well-formed attendance cell: empty, or an arrival time followed by a departure
time or by `-`. No cell of this form has a departure without an arrival. -/
def WellFormedCell (v : Str) : Prop :=
  v = [] ∨ ∃ a d, isHHMM a = true ∧ (isHHMM d = true ∨ d = ['-']) ∧ v = cellText a d

/-- The states reached from an empty sheet by calls of `doPost` and of
`closeUnfinishedDays`. -/
inductive Reachable (P : Platform) : State → Prop where
  | init (props : Properties) : Reachable P { sheet := Sheet.empty, props := props }
  | post (st : State) (e : Event) : Reachable P st → Reachable P (doPost P st e).2
  | close (st : State) (today : ℤ) : Reachable P st →
      Reachable P { sheet := closeUnfinishedDays P today st.sheet, props := st.props }

end SKUD

namespace SKUD

/-- The arrival and the departure of a cell that has both, the departure other than `-`:
the cell reads `Приход: a, Уход: d` with two times of day. -/
def workedTimes (v : Str) : Option (Str × Str) :=
  if v = cellText ((v.drop 8).take 5) (v.drop 21) ∧ isHHMM ((v.drop 8).take 5) = true ∧
      isHHMM (v.drop 21) = true
  then some ((v.drop 8).take 5, v.drop 21) else none

/-- The days worked in a month: for every date column of the year and month whose cell
has both an arrival and a departure, the date of the column and the two times, in
the order of the columns. -/
def workedDays (P : Platform) (year month : ℤ) (columns : List (Str × Str)) :
    List (ℤ × Str × Str) :=
  columns.filterMap (fun hv =>
    match columnDate P year month hv.1, workedTimes hv.2 with
    | some dateObj, some ad => some (dateObj, ad.1, ad.2)
    | _, _ => none)

/-- The sum of `calculateHours` over a list of days, added in order onto `start`. -/
def sumHours (P : Platform) (start : Option ℚ) (days : List (ℤ × Str × Str)) : Option ℚ :=
  days.foldl
    (fun acc x => numAdd acc (AttendanceScript.calculateHours P.zone x.1 x.2.1 x.2.2)) start

/-- Whether the date is a Saturday or a Sunday in the script time zone. -/
def isWeekend (P : Platform) (dateObj : ℤ) : Bool :=
  decide (weekdayOf (dayNumber P.zone dateObj) = 0 ∨ weekdayOf (dayNumber P.zone dateObj) = 6)

/-- The report row of the employee of row `i + 2`, as the claim describes it. -/
def reportRowSpec (P : Platform) (year month : ℤ) (sheet : Sheet) (i : Nat) : ReportRow :=
  { employeeName := sheet.getValue (i + 2) 1
    totalHours := round1 (sumHours P (some 0) (workedDays P year month (columnsOf sheet i)))
    weekendHours := round1 (sumHours P (some 0)
      ((workedDays P year month (columnsOf sheet i)).filter (fun x => isWeekend P x.1)))
    workDays := (workedDays P year month (columnsOf sheet i)).length
    average :=
      if (workedDays P year month (columnsOf sheet i)).length = 0 then some 0
      else round1 ((sumHours P (some 0) (workedDays P year month (columnsOf sheet i))).map
        (fun v => jsDiv v ((workedDays P year month (columnsOf sheet i)).length : ℚ))) }

/-- The report as the claim describes it: one row for every row of the sheet, from the
second on, that has a name. -/
def reportSpec (P : Platform) (sheet : Sheet) (year month : ℤ) : List ReportRow :=
  (List.range (sheet.getLastRow - 1)).filterMap (fun i =>
    if sheet.getValue (i + 2) 1 = [] then none else some (reportRowSpec P year month sheet i))

/-- A sheet with one employee and one day, Wednesday 2025-06-25, 09:00 to 18:00. -/
def wednesdaySheet : Sheet := Sheet.ofRows
  [["Фамилия".toList, "Ср 2025-06-25".toList],
   ["Иванов".toList, "Приход: 09:00, Уход: 18:00".toList]]

end SKUD

namespace SKUD

/-! ## Rounding to binary64 -/

theorem pow2_eq (e : ℤ) : pow2 e = (2 : ℚ) ^ e := by
  cases e with
  | ofNat n => simp [pow2]
  | negSucc n => simp [pow2, zpow_negSucc]

theorem pow2_pos (e : ℤ) : 0 < pow2 e := by
  rw [pow2_eq]; positivity

theorem ilog2Aux_spec : ∀ fuel n : Nat, 1 ≤ n → n ≤ fuel →
    2 ^ ilog2Aux fuel n ≤ n ∧ n < 2 ^ (ilog2Aux fuel n + 1) := by
  intro fuel
  induction fuel with
  | zero => intro n h1 h2; omega
  | succ f ih =>
    intro n h1 h2
    unfold ilog2Aux
    by_cases hn : n < 2
    · simp only [hn, if_true]
      constructor
      · simpa using h1
      · simpa using hn
    · simp only [hn, if_false]
      have h3 : 1 ≤ n / 2 := by omega
      have h4 : n / 2 ≤ f := by omega
      obtain ⟨ha, hb⟩ := ih (n / 2) h3 h4
      constructor
      · rw [pow_succ]; omega
      · rw [pow_succ]; omega

theorem ilog2_spec (n : Nat) (h : 1 ≤ n) : 2 ^ ilog2 n ≤ n ∧ n < 2 ^ (ilog2 n + 1) :=
  ilog2Aux_spec n n h le_rfl

theorem binExp_le (x : ℚ) (hx : 0 < x) : pow2 (binExp x) ≤ x := by
  unfold binExp
  simp only
  split_ifs with h
  · have hnum : 0 < x.num := Rat.num_pos.mpr hx
    have hp : 1 ≤ x.num.natAbs := by omega
    have hq : 1 ≤ x.den := x.den_pos
    obtain ⟨hp1, _⟩ := ilog2_spec _ hp
    obtain ⟨_, hq2⟩ := ilog2_spec _ hq
    have hxe : x = (x.num.natAbs : ℚ) / (x.den : ℚ) := by
      have h1 : ((x.num.natAbs : ℤ) : ℚ) = (x.num : ℚ) := by
        rw [Int.natAbs_of_nonneg hnum.le]
      have h2 : (x.num.natAbs : ℚ) = (x.num : ℚ) :=
        (Int.cast_natCast _).symm.trans h1
      rw [h2, Rat.num_div_den]
    rw [pow2_eq]
    have e1 : ((ilog2 x.num.natAbs : ℤ) - (ilog2 x.den : ℤ) - 1) =
        (ilog2 x.num.natAbs : ℤ) - ((ilog2 x.den + 1 : ℕ) : ℤ) := by push_cast; ring
    rw [e1, zpow_sub₀ (by norm_num : (2 : ℚ) ≠ 0), zpow_natCast, zpow_natCast]
    have hp1q : ((2 : ℚ) ^ ilog2 x.num.natAbs) ≤ (x.num.natAbs : ℚ) := by exact_mod_cast hp1
    have hq2q : (x.den : ℚ) ≤ (2 : ℚ) ^ (ilog2 x.den + 1) := by exact_mod_cast hq2.le
    have hqpos : (0 : ℚ) < x.den := by exact_mod_cast hq
    calc (2 : ℚ) ^ ilog2 x.num.natAbs / 2 ^ (ilog2 x.den + 1)
        ≤ (x.num.natAbs : ℚ) / 2 ^ (ilog2 x.den + 1) := by gcongr
      _ ≤ (x.num.natAbs : ℚ) / (x.den : ℚ) := by gcongr
      _ = x := hxe.symm
  · exact not_lt.mp h

theorem binExp_lt (x : ℚ) (hx : 0 < x) : x < pow2 (binExp x + 1) := by
  unfold binExp
  simp only
  split_ifs with h
  · simpa using h
  · have hnum : 0 < x.num := Rat.num_pos.mpr hx
    have hp : 1 ≤ x.num.natAbs := by omega
    have hq : 1 ≤ x.den := x.den_pos
    obtain ⟨_, hp2⟩ := ilog2_spec _ hp
    obtain ⟨hq1, _⟩ := ilog2_spec _ hq
    have hxe : x = (x.num.natAbs : ℚ) / (x.den : ℚ) := by
      have h1 : ((x.num.natAbs : ℤ) : ℚ) = (x.num : ℚ) := by
        rw [Int.natAbs_of_nonneg hnum.le]
      have h2 : (x.num.natAbs : ℚ) = (x.num : ℚ) :=
        (Int.cast_natCast _).symm.trans h1
      rw [h2, Rat.num_div_den]
    rw [pow2_eq]
    have e1 : ((ilog2 x.num.natAbs : ℤ) - (ilog2 x.den : ℤ) + 1) =
        ((ilog2 x.num.natAbs + 1 : ℕ) : ℤ) - (ilog2 x.den : ℤ) := by push_cast; ring
    rw [e1, zpow_sub₀ (by norm_num : (2 : ℚ) ≠ 0), zpow_natCast, zpow_natCast]
    have hp2q : (x.num.natAbs : ℚ) < (2 : ℚ) ^ (ilog2 x.num.natAbs + 1) := by exact_mod_cast hp2
    have hq1q : ((2 : ℚ) ^ ilog2 x.den) ≤ (x.den : ℚ) := by exact_mod_cast hq1
    have hqpos : (0 : ℚ) < x.den := by exact_mod_cast hq
    have h2pos : (0 : ℚ) < 2 ^ ilog2 x.den := by positivity
    calc x = (x.num.natAbs : ℚ) / (x.den : ℚ) := hxe
      _ ≤ (x.num.natAbs : ℚ) / 2 ^ ilog2 x.den := by gcongr
      _ < (2 : ℚ) ^ (ilog2 x.num.natAbs + 1) / 2 ^ ilog2 x.den := by gcongr

theorem roundHalfEven_le (x : ℚ) : (roundHalfEven x : ℚ) ≤ x + 1 / 2 := by
  have hden : (0 : ℤ) < (x.den : ℤ) := by exact_mod_cast x.den_pos
  have hdq : (0 : ℚ) < (x.den : ℚ) := by exact_mod_cast x.den_pos
  have hr0 : 0 ≤ x.num % (x.den : ℤ) := Int.emod_nonneg _ hden.ne'
  have hdecomp : (x.den : ℤ) * (x.num / (x.den : ℤ)) + x.num % (x.den : ℤ) = x.num :=
    Int.ediv_add_emod _ _
  have hx : x = ((x.num / (x.den : ℤ) : ℤ) : ℚ) + ((x.num % (x.den : ℤ) : ℤ) : ℚ) / (x.den : ℚ) := by
    have h1 : (x.num : ℚ) / (x.den : ℚ) = x := Rat.num_div_den x
    have h2 : (x.num : ℚ) = (x.den : ℚ) * ((x.num / (x.den : ℤ) : ℤ) : ℚ) +
        ((x.num % (x.den : ℤ) : ℤ) : ℚ) := by exact_mod_cast hdecomp.symm
    calc x = (x.num : ℚ) / (x.den : ℚ) := h1.symm
      _ = _ := by rw [h2]; field_simp; ring
  have hrq : (0 : ℚ) ≤ ((x.num % (x.den : ℤ) : ℤ) : ℚ) / (x.den : ℚ) := by
    apply div_nonneg _ hdq.le
    exact_mod_cast hr0
  unfold roundHalfEven
  simp only
  have key : ∀ (_ : (x.den : ℤ) ≤ 2 * (x.num % (x.den : ℤ))),
      (((x.num / (x.den : ℤ) + 1 : ℤ) : ℚ)) ≤ x + 1 / 2 := by
    intro h2
    have h3 : (x.den : ℚ) ≤ 2 * ((x.num % (x.den : ℤ) : ℤ) : ℚ) := by exact_mod_cast h2
    have h4 : (1 : ℚ) / 2 ≤ ((x.num % (x.den : ℤ) : ℤ) : ℚ) / (x.den : ℚ) := by
      rw [div_le_div_iff₀ (by norm_num) hdq]; linarith
    push_cast
    linarith
  split_ifs with h1 h2 h3
  · linarith
  · exact key h2.le
  · linarith
  · exact key (not_lt.mp h1)

theorem roundHalfEven_intCast (k : ℤ) : roundHalfEven (k : ℚ) = k := by
  simp [roundHalfEven]

theorem rn_intCast (k : ℤ) (hk : |k| < 2 ^ 53) : rn (k : ℚ) = (k : ℚ) := by
  by_cases hk0 : k = 0
  · simp [rn, hk0]
  · have hkq : (k : ℚ) ≠ 0 := by exact_mod_cast hk0
    unfold rn
    simp only [hkq, if_false]
    have hpos : 0 < |(k : ℚ)| := abs_pos.mpr hkq
    have hle := binExp_le _ hpos
    have hlt : |(k : ℚ)| < 2 ^ (53 : ℤ) := by
      have h : ((|k| : ℤ) : ℚ) < ((2 ^ 53 : ℤ) : ℚ) := by exact_mod_cast hk
      rw [Int.cast_abs] at h
      have h53 : (2 : ℚ) ^ (53 : ℤ) = ((2 ^ 53 : ℤ) : ℚ) := by norm_num
      rw [h53]; exact h
    rw [pow2_eq] at hle
    have he : binExp |(k : ℚ)| < 53 := by
      have := lt_of_le_of_lt hle hlt
      exact (zpow_lt_zpow_iff_right₀ (by norm_num : (1 : ℚ) < 2)).mp this
    obtain ⟨n, hn⟩ : ∃ n : ℕ, binExp |(k : ℚ)| - 52 = -(n : ℤ) :=
      ⟨(52 - binExp |(k : ℚ)|).toNat, by omega⟩
    rw [hn, pow2_eq, zpow_neg, zpow_natCast]
    have h2n : ((2 : ℚ) ^ n) ≠ 0 := by positivity
    have hcast : (k : ℚ) / ((2 : ℚ) ^ n)⁻¹ = ((k * 2 ^ n : ℤ) : ℚ) := by
      push_cast; field_simp
    rw [hcast, roundHalfEven_intCast]
    push_cast
    field_simp

theorem rn_nonpos (x : ℚ) (hx : x ≤ 0) : rn x ≤ 0 := by
  unfold rn
  split_ifs with h0
  · exact le_rfl
  · simp only
    have hu := pow2_pos (binExp |x| - 52)
    have h1 : x / pow2 (binExp |x| - 52) ≤ 0 := div_nonpos_of_nonpos_of_nonneg hx hu.le
    have h2 := roundHalfEven_le (x / pow2 (binExp |x| - 52))
    have h3 : (roundHalfEven (x / pow2 (binExp |x| - 52)) : ℚ) < 1 := by linarith
    have h4 : roundHalfEven (x / pow2 (binExp |x| - 52)) < 1 := by exact_mod_cast h3
    have h5 : (roundHalfEven (x / pow2 (binExp |x| - 52)) : ℚ) ≤ 0 := by
      exact_mod_cast (by omega : roundHalfEven (x / pow2 (binExp |x| - 52)) ≤ 0)
    exact mul_nonpos_of_nonpos_of_nonneg h5 hu.le

theorem rn_lt_one (x : ℚ) (h0 : 0 < x) (h1 : x ≤ 59999 / 60000) : rn x < 1 := by
  unfold rn
  simp only [h0.ne', if_false]
  rw [abs_of_pos h0]
  have hle := binExp_le x h0
  have he : binExp x < 0 := by
    rw [pow2_eq] at hle
    have h2 : (2 : ℚ) ^ binExp x < 2 ^ (0 : ℤ) := by
      simp only [zpow_zero]; linarith
    exact (zpow_lt_zpow_iff_right₀ (by norm_num : (1 : ℚ) < 2)).mp h2
  have hu := pow2_pos (binExp x - 52)
  have hu2 : pow2 (binExp x - 52) ≤ 1 / 2 ^ 53 := by
    rw [pow2_eq]
    have : (2 : ℚ) ^ (binExp x - 52) ≤ 2 ^ (-53 : ℤ) :=
      zpow_le_zpow_right₀ (by norm_num) (by omega)
    calc (2 : ℚ) ^ (binExp x - 52) ≤ 2 ^ (-53 : ℤ) := this
      _ = 1 / 2 ^ 53 := by norm_num [zpow_neg]
  have h2 := roundHalfEven_le (x / pow2 (binExp x - 52))
  have h3 : (roundHalfEven (x / pow2 (binExp x - 52)) : ℚ) * pow2 (binExp x - 52) ≤
      (x / pow2 (binExp x - 52) + 1 / 2) * pow2 (binExp x - 52) :=
    mul_le_mul_of_nonneg_right h2 hu.le
  have h4 : (x / pow2 (binExp x - 52) + 1 / 2) * pow2 (binExp x - 52) =
      x + pow2 (binExp x - 52) / 2 := by
    field_simp
    ring
  rw [h4] at h3
  have h5 : (1 : ℚ) / 2 ^ 53 < 1 / 60000 := by norm_num
  linarith

end SKUD

namespace SKUD

/-! ## The two hour calculators -/

theorem isDigit_cases (c : Char) (h : isDigit c = true) :
    c.toNat - 48 < 10 ∧ c = digitChar (c.toNat - 48) := by
  simp only [isDigit, Bool.and_eq_true, decide_eq_true_eq] at h
  obtain ⟨h1, h2⟩ := h
  refine ⟨by omega, ?_⟩
  have hc : Char.ofNat c.toNat = c := Char.ofNat_toNat c
  rw [← hc]
  generalize c.toNat = n at h1 h2
  interval_cases n <;> decide

theorem isHHMM_cases (s : Str) (h : isHHMM s = true) :
    ∃ hh mm : Nat, hh < 24 ∧ mm < 60 ∧ s = hhmm hh mm ∧
      minutesOfDay s = ((60 * hh + mm : ℕ) : ℤ) := by
  match s, h with
  | [a, b, c, d, e], h =>
    simp only [isHHMM, Bool.and_eq_true, decide_eq_true_eq] at h
    obtain ⟨⟨⟨⟨⟨⟨ha, hb⟩, hc⟩, hd⟩, he⟩, h24⟩, h60⟩ := h
    obtain ⟨ka, ea⟩ := isDigit_cases a ha
    obtain ⟨kb, eb⟩ := isDigit_cases b hb
    obtain ⟨kd, ed⟩ := isDigit_cases d hd
    obtain ⟨ke, ee⟩ := isDigit_cases e he
    refine ⟨twoDigits a b, twoDigits d e, h24, h60, ?_, ?_⟩
    · simp only [hhmm, pad2, twoDigits, List.cons_append, List.nil_append]
      have e1 : ((a.toNat - 48) * 10 + (b.toNat - 48)) / 10 % 10 = a.toNat - 48 := by omega
      have e2 : ((a.toNat - 48) * 10 + (b.toNat - 48)) % 10 = b.toNat - 48 := by omega
      have e3 : ((d.toNat - 48) * 10 + (e.toNat - 48)) / 10 % 10 = d.toNat - 48 := by omega
      have e4 : ((d.toNat - 48) * 10 + (e.toNat - 48)) % 10 = e.toNat - 48 := by omega
      rw [e1, e2, e3, e4, ← ea, ← eb, ← ed, ← ee, hc]
    · simp only [minutesOfDay]
      congr 1
      ring

set_option maxRecDepth 100000 in
theorem timeParts_hhmm : ∀ h : Fin 24, ∀ m : Fin 60,
    split (hhmm h.val m.val) [':'] = [pad2 h.val, pad2 m.val] := by
  decide!

set_option maxRecDepth 100000 in
theorem parseInt_pad2 : ∀ n : Fin 60, parseInt (pad2 n.val) = some (n.val : ℤ) := by
  decide!

set_option maxRecDepth 100000 in
theorem jsNumber_pad2 : ∀ n : Fin 60, jsNumber (pad2 n.val) = some (n.val : ℚ) := by
  decide!

theorem timeOn_hhmm (zone date : ℤ) (h m : Nat) (hh : h < 24) (hm : m < 60) :
    timeOn zone date (hhmm h m) = some (setHours zone date h m) := by
  have h1 := timeParts_hhmm ⟨h, hh⟩ ⟨m, hm⟩
  have h2 := parseInt_pad2 ⟨h, by omega⟩
  have h3 := parseInt_pad2 ⟨m, hm⟩
  simp only at h1 h2 h3
  simp [timeOn, h1, orUndefined, h2, h3]

end SKUD

namespace SKUD

theorem jsSub_intCast (a b : ℤ) (h : |a - b| < 2 ^ 53) :
    jsSub (a : ℚ) (b : ℚ) = ((a - b : ℤ) : ℚ) := by
  unfold jsSub
  rw [← Int.cast_sub]
  exact rn_intCast _ h

theorem jsAdd_intCast (a b : ℤ) (h : |a + b| < 2 ^ 53) :
    jsAdd (a : ℚ) (b : ℚ) = ((a + b : ℤ) : ℚ) := by
  unfold jsAdd
  rw [← Int.cast_add]
  exact rn_intCast _ h

theorem setHours_sub (zone date h1 m1 h2 m2 : ℤ) :
    setHours zone date h2 m2 - setHours zone date h1 m1 =
      ((60 * h2 + m2) - (60 * h1 + m1)) * 60000 := by
  unfold setHours; ring

/-- The script calculator on two times of day given by their hours and minutes. -/
theorem calculateHours_hhmm (zone date : ℤ) (ha ma hd md : Nat)
    (h1 : ha < 24) (h2 : ma < 60) (h3 : hd < 24) (h4 : md < 60) :
    AttendanceScript.calculateHours zone date (hhmm ha ma) (hhmm hd md) =
      some (rn (((if ((60 * ha + ma : ℕ) : ℤ) ≤ ((60 * hd + md : ℕ) : ℤ)
        then ((60 * hd + md : ℕ) : ℤ) - ((60 * ha + ma : ℕ) : ℤ)
        else ((60 * hd + md : ℕ) : ℤ) - ((60 * ha + ma : ℕ) : ℤ) + 24 * 60 : ℤ) : ℚ) / 60)) := by
  unfold AttendanceScript.calculateHours
  rw [timeOn_hhmm zone date ha ma h1 h2, timeOn_hhmm zone date hd md h3 h4]
  simp only
  have hsub := setHours_sub zone date ha ma hd md
  by_cases hlt : setHours zone date hd md < setHours zone date ha ma
  · have hneg : ¬ (((60 * ha + ma : ℕ) : ℤ) ≤ ((60 * hd + md : ℕ) : ℤ)) := by
      push_cast; omega
    simp only [hlt, if_true, hneg, if_false]
    rw [jsSub_intCast _ _ (by
      rw [abs_lt]; unfold msPerDay; constructor <;> omega)]
    unfold jsDiv
    congr 2
    have e : setHours zone date hd md + msPerDay - setHours zone date ha ma =
        (((60 * hd + md : ℕ) : ℤ) - ((60 * ha + ma : ℕ) : ℤ) + 24 * 60) * 60000 := by
      unfold msPerDay; push_cast; omega
    rw [e]
    push_cast
    ring
  · have hpos : (((60 * ha + ma : ℕ) : ℤ) ≤ ((60 * hd + md : ℕ) : ℤ)) := by
      push_cast; omega
    simp only [hlt, if_false, hpos, if_true]
    rw [jsSub_intCast _ _ (by rw [abs_lt]; constructor <;> omega)]
    unfold jsDiv
    congr 2
    have e : setHours zone date hd md - setHours zone date ha ma =
        (((60 * hd + md : ℕ) : ℤ) - ((60 * ha + ma : ℕ) : ℤ)) * 60000 := by
      push_cast; omega
    rw [e]
    push_cast
    ring

end SKUD

namespace SKUD

theorem roundHalfEven_ge (x : ℚ) : x - 1 / 2 ≤ (roundHalfEven x : ℚ) := by
  have hden : (0 : ℤ) < (x.den : ℤ) := by exact_mod_cast x.den_pos
  have hdq : (0 : ℚ) < (x.den : ℚ) := by exact_mod_cast x.den_pos
  have hr1 : x.num % (x.den : ℤ) < (x.den : ℤ) := Int.emod_lt_of_pos _ hden
  have hdecomp : (x.den : ℤ) * (x.num / (x.den : ℤ)) + x.num % (x.den : ℤ) = x.num :=
    Int.ediv_add_emod _ _
  have hx : x = ((x.num / (x.den : ℤ) : ℤ) : ℚ) + ((x.num % (x.den : ℤ) : ℤ) : ℚ) / (x.den : ℚ) := by
    have h1 : (x.num : ℚ) / (x.den : ℚ) = x := Rat.num_div_den x
    have h2 : (x.num : ℚ) = (x.den : ℚ) * ((x.num / (x.den : ℤ) : ℤ) : ℚ) +
        ((x.num % (x.den : ℤ) : ℤ) : ℚ) := by exact_mod_cast hdecomp.symm
    calc x = (x.num : ℚ) / (x.den : ℚ) := h1.symm
      _ = _ := by rw [h2]; field_simp; ring
  have hlt1 : ((x.num % (x.den : ℤ) : ℤ) : ℚ) / (x.den : ℚ) < 1 := by
    rw [div_lt_one hdq]; exact_mod_cast hr1
  unfold roundHalfEven
  simp only
  have key : ∀ (_ : 2 * (x.num % (x.den : ℤ)) ≤ (x.den : ℤ)),
      x - 1 / 2 ≤ (((x.num / (x.den : ℤ) : ℤ)) : ℚ) := by
    intro h2
    have h3 : 2 * ((x.num % (x.den : ℤ) : ℤ) : ℚ) ≤ (x.den : ℚ) := by exact_mod_cast h2
    have h4 : ((x.num % (x.den : ℤ) : ℤ) : ℚ) / (x.den : ℚ) ≤ 1 / 2 := by
      rw [div_le_div_iff₀ hdq (by norm_num)]; linarith
    linarith
  split_ifs with h1 h2 h3
  · exact key h1.le
  · push_cast; linarith
  · exact key (not_lt.mp h2)
  · push_cast; linarith

theorem rn_nonneg (x : ℚ) (hx : 0 ≤ x) : 0 ≤ rn x := by
  unfold rn
  split_ifs with h0
  · exact le_rfl
  · simp only
    have hu := pow2_pos (binExp |x| - 52)
    have h1 : 0 ≤ x / pow2 (binExp |x| - 52) := div_nonneg hx hu.le
    have h2 := roundHalfEven_ge (x / pow2 (binExp |x| - 52))
    have h3 : (-1 : ℚ) < (roundHalfEven (x / pow2 (binExp |x| - 52)) : ℚ) := by linarith
    have h4 : -1 < roundHalfEven (x / pow2 (binExp |x| - 52)) := by exact_mod_cast h3
    have h5 : (0 : ℚ) ≤ (roundHalfEven (x / pow2 (binExp |x| - 52)) : ℚ) := by
      exact_mod_cast (by omega : 0 ≤ roundHalfEven (x / pow2 (binExp |x| - 52)))
    exact mul_nonneg h5 hu.le

/-- The rounding error of `rn` below `2 ^ e`: at most half a unit in the last place. -/
theorem rn_error (x : ℚ) (e : ℤ) (h0 : 0 ≤ x) (he : x < pow2 e) :
    |rn x - x| ≤ pow2 (e - 54) := by
  by_cases hx0 : x = 0
  · subst hx0
    simp only [rn, if_true, sub_self, abs_zero]
    exact (pow2_pos _).le
  · have hpos : 0 < x := lt_of_le_of_ne h0 (Ne.symm hx0)
    unfold rn
    simp only [hx0, if_false]
    rw [abs_of_pos hpos]
    have hle := binExp_le x hpos
    have hb : binExp x < e := by
      rw [pow2_eq] at hle he
      exact (zpow_lt_zpow_iff_right₀ (by norm_num : (1 : ℚ) < 2)).mp (lt_of_le_of_lt hle he)
    have hu := pow2_pos (binExp x - 52)
    have hu2 : pow2 (binExp x - 52) ≤ 2 * pow2 (e - 54) := by
      rw [pow2_eq, pow2_eq]
      have h1 : (2 : ℚ) ^ (binExp x - 52) ≤ 2 ^ (e - 53) :=
        zpow_le_zpow_right₀ (by norm_num) (by omega)
      have h2 : (2 : ℚ) ^ (e - 53) = 2 * 2 ^ (e - 54) := by
        rw [show e - 53 = (e - 54) + 1 by ring, zpow_add_one₀ (by norm_num : (2 : ℚ) ≠ 0)]
        ring
      rw [← h2]; exact h1
    have hup := roundHalfEven_le (x / pow2 (binExp x - 52))
    have hlo := roundHalfEven_ge (x / pow2 (binExp x - 52))
    have hxu : x / pow2 (binExp x - 52) * pow2 (binExp x - 52) = x := by
      field_simp
    have h3 : (roundHalfEven (x / pow2 (binExp x - 52)) : ℚ) * pow2 (binExp x - 52) ≤
        x + pow2 (binExp x - 52) / 2 := by
      have := mul_le_mul_of_nonneg_right hup hu.le
      rw [add_mul, hxu] at this
      linarith
    have h4 : x - pow2 (binExp x - 52) / 2 ≤
        (roundHalfEven (x / pow2 (binExp x - 52)) : ℚ) * pow2 (binExp x - 52) := by
      have := mul_le_mul_of_nonneg_right hlo hu.le
      rw [sub_mul, hxu] at this
      linarith
    rw [abs_le]
    constructor <;> linarith

/-- The two roundings of the same number of hours `H + M / 60`, for every whole number
of hours below 24 and of minutes below 60. -/
theorem hours_roundings (H M : Nat) (hH : H < 24) (hM : M < 60) :
    |jsAdd (H : ℚ) (jsDiv (M : ℚ) 60) - rn ((((60 * H + M : ℕ) : ℤ) : ℚ) / 60)|
        ≤ 1 / 2 ^ 47 ∧
      0 ≤ jsAdd (H : ℚ) (jsDiv (M : ℚ) 60) ∧
      jsAdd (H : ℚ) (jsDiv (M : ℚ) 60) < 24 ∧
      0 ≤ rn ((((60 * H + M : ℕ) : ℤ) : ℚ) / 60) ∧
      rn ((((60 * H + M : ℕ) : ℤ) : ℚ) / 60) < 24 := by
  unfold jsAdd jsDiv
  have hHq : (H : ℚ) ≤ 23 := by exact_mod_cast (by omega : H ≤ 23)
  have hMq : (M : ℚ) ≤ 59 := by exact_mod_cast (by omega : M ≤ 59)
  have hH0 : (0 : ℚ) ≤ (H : ℚ) := by positivity
  have hM0 : (0 : ℚ) ≤ (M : ℚ) := by positivity
  have hz : ((((60 * H + M : ℕ) : ℤ) : ℚ) / 60) = (H : ℚ) + (M : ℚ) / 60 := by
    push_cast; ring
  rw [hz]
  have p0 : pow2 0 = 1 := by simp [pow2_eq]
  have p5 : pow2 5 = 32 := by rw [pow2_eq]; norm_num
  have p54 : pow2 (0 - 54) = 1 / 2 ^ 54 := by rw [pow2_eq]; norm_num [zpow_neg]
  have p49 : pow2 (5 - 54) = 1 / 2 ^ 49 := by rw [pow2_eq]; norm_num [zpow_neg]
  -- the inner quotient
  have hm1 : (M : ℚ) / 60 < 1 := by rw [div_lt_one (by norm_num)]; linarith
  have hm0 : (0 : ℚ) ≤ (M : ℚ) / 60 := by positivity
  have ew := rn_error ((M : ℚ) / 60) 0 hm0 (by rw [p0]; exact hm1)
  rw [p54, abs_le] at ew
  have hw0 := rn_nonneg _ hm0
  -- the sum of the front-end
  have hs0 : (0 : ℚ) ≤ (H : ℚ) + rn ((M : ℚ) / 60) := by linarith
  have hs32 : (H : ℚ) + rn ((M : ℚ) / 60) < pow2 5 := by
    rw [p5]
    have : (1 : ℚ) / 2 ^ 54 < 1 := by norm_num
    linarith [ew.2]
  have ex := rn_error _ 5 hs0 hs32
  rw [p49, abs_le] at ex
  -- the quotient of the script
  have hy0 : (0 : ℚ) ≤ (H : ℚ) + (M : ℚ) / 60 := by linarith
  have hy32 : (H : ℚ) + (M : ℚ) / 60 < pow2 5 := by rw [p5]; linarith
  have ey := rn_error _ 5 hy0 hy32
  rw [p49, abs_le] at ey
  have hm59 : (M : ℚ) / 60 ≤ 59 / 60 := by
    rw [div_le_div_iff₀ (by norm_num) (by norm_num)]; linarith
  have c1 : (1 : ℚ) / 2 ^ 49 + 1 / 2 ^ 54 + 1 / 2 ^ 49 ≤ 1 / 2 ^ 47 := by norm_num
  have c2 : (1 : ℚ) / 2 ^ 49 + 1 / 2 ^ 54 < 1 / 60 := by norm_num
  have c3 : (0 : ℚ) < 1 / 2 ^ 54 := by norm_num
  have c4 : (0 : ℚ) < 1 / 2 ^ 49 := by norm_num
  refine ⟨?_, rn_nonneg _ hs0, ?_, rn_nonneg _ hy0, ?_⟩
  · rw [abs_le]
    constructor <;> linarith [ew.1, ew.2, ex.1, ex.2, ey.1, ey.2]
  · linarith [ew.2, ex.2]
  · linarith [ey.2]

end SKUD

namespace SKUD

theorem hhmm_ne_nil (h m : Nat) : hhmm h m ≠ [] := by
  simp [hhmm, pad2]

/-- The front-end calculator on two times of day given by their hours and minutes:
`H` whole hours and `M` minutes, added as `H + M / 60`. -/
theorem mainCalculateHours_hhmm (ha ma hd md : Nat)
    (h1 : ha < 24) (h2 : ma < 60) (h3 : hd < 24) (h4 : md < 60) :
    ∃ H M : Nat, H < 24 ∧ M < 60 ∧
      ((60 * H + M : ℕ) : ℤ) =
        (if ((60 * ha + ma : ℕ) : ℤ) ≤ ((60 * hd + md : ℕ) : ℤ)
          then ((60 * hd + md : ℕ) : ℤ) - ((60 * ha + ma : ℕ) : ℤ)
          else ((60 * hd + md : ℕ) : ℤ) - ((60 * ha + ma : ℕ) : ℤ) + 24 * 60) ∧
      MainJs.calculateHours (hhmm ha ma) (hhmm hd md) =
        some (some (jsAdd (H : ℚ) (jsDiv (M : ℚ) 60))) := by
  have s1 := timeParts_hhmm ⟨ha, h1⟩ ⟨ma, h2⟩
  have s2 := timeParts_hhmm ⟨hd, h3⟩ ⟨md, h4⟩
  have n1 := jsNumber_pad2 ⟨ha, by omega⟩
  have n2 := jsNumber_pad2 ⟨ma, h2⟩
  have n3 := jsNumber_pad2 ⟨hd, by omega⟩
  have n4 := jsNumber_pad2 ⟨md, h4⟩
  simp only at s1 s2 n1 n2 n3 n4
  have hsubH : jsSub (hd : ℚ) (ha : ℚ) = (((hd : ℤ) - (ha : ℤ) : ℤ) : ℚ) := by
    have := jsSub_intCast (hd : ℤ) (ha : ℤ) (by rw [abs_lt]; constructor <;> omega)
    simpa using this
  have hsubM : jsSub (md : ℚ) (ma : ℚ) = (((md : ℤ) - (ma : ℤ) : ℤ) : ℚ) := by
    have := jsSub_intCast (md : ℤ) (ma : ℤ) (by rw [abs_lt]; constructor <;> omega)
    simpa using this
  have hmain : MainJs.calculateHours (hhmm ha ma) (hhmm hd md) =
      some (some (jsAdd
        (if (if (((md : ℤ) - (ma : ℤ) : ℤ) : ℚ) < 0 then jsSub (((hd : ℤ) - (ha : ℤ) : ℤ) : ℚ) 1
              else (((hd : ℤ) - (ha : ℤ) : ℤ) : ℚ)) < 0
          then jsAdd (if (((md : ℤ) - (ma : ℤ) : ℤ) : ℚ) < 0
              then jsSub (((hd : ℤ) - (ha : ℤ) : ℤ) : ℚ) 1
              else (((hd : ℤ) - (ha : ℤ) : ℤ) : ℚ)) 24
          else (if (((md : ℤ) - (ma : ℤ) : ℤ) : ℚ) < 0
              then jsSub (((hd : ℤ) - (ha : ℤ) : ℤ) : ℚ) 1
              else (((hd : ℤ) - (ha : ℤ) : ℤ) : ℚ)))
        (jsDiv (if (((md : ℤ) - (ma : ℤ) : ℤ) : ℚ) < 0
            then jsAdd (((md : ℤ) - (ma : ℤ) : ℤ) : ℚ) 60
            else (((md : ℤ) - (ma : ℤ) : ℤ) : ℚ)) 60))) := by
    unfold MainJs.calculateHours
    simp only [hhmm_ne_nil, or_self, if_false, s1, s2, List.map, n1, n2, n3, n4, List.get?,
      hsubH, hsubM]
  rw [hmain]
  have hsub1 : ∀ k : ℤ, |k - 1| < 2 ^ 53 → jsSub (k : ℚ) 1 = ((k - 1 : ℤ) : ℚ) := by
    intro k hk
    have := jsSub_intCast k 1 hk
    simpa using this
  have hadd24 : ∀ k : ℤ, |k + 24| < 2 ^ 53 → jsAdd (k : ℚ) 24 = ((k + 24 : ℤ) : ℚ) := by
    intro k hk
    have := jsAdd_intCast k 24 hk
    simpa using this
  have hadd60 : ∀ k : ℤ, |k + 60| < 2 ^ 53 → jsAdd (k : ℚ) 60 = ((k + 60 : ℤ) : ℚ) := by
    intro k hk
    have := jsAdd_intCast k 60 hk
    simpa using this
  by_cases hM : (md : ℤ) - (ma : ℤ) < 0
  · have hMq : (((md : ℤ) - (ma : ℤ) : ℤ) : ℚ) < 0 := by exact_mod_cast hM
    simp only [hMq, if_true]
    rw [hsub1 _ (by rw [abs_lt]; constructor <;> omega),
      hadd60 _ (by rw [abs_lt]; constructor <;> omega)]
    by_cases hH : (hd : ℤ) - (ha : ℤ) - 1 < 0
    · have hHq : (((hd : ℤ) - (ha : ℤ) - 1 : ℤ) : ℚ) < 0 := by exact_mod_cast hH
      simp only [hHq, if_true]
      rw [hadd24 _ (by rw [abs_lt]; constructor <;> omega)]
      refine ⟨((hd : ℤ) - (ha : ℤ) - 1 + 24).toNat, ((md : ℤ) - (ma : ℤ) + 60).toNat,
        by omega, by omega, ?_, ?_⟩
      · split_ifs <;> push_cast <;> omega
      · have e1 : ((((hd : ℤ) - (ha : ℤ) - 1 + 24).toNat : ℕ) : ℚ) =
            (((hd : ℤ) - (ha : ℤ) - 1 + 24 : ℤ) : ℚ) := by
          rw [← Int.cast_natCast, Int.toNat_of_nonneg (by omega)]
        have e2 : ((((md : ℤ) - (ma : ℤ) + 60).toNat : ℕ) : ℚ) =
            (((md : ℤ) - (ma : ℤ) + 60 : ℤ) : ℚ) := by
          rw [← Int.cast_natCast, Int.toNat_of_nonneg (by omega)]
        rw [e1, e2]
    · have hHq : ¬ (((hd : ℤ) - (ha : ℤ) - 1 : ℤ) : ℚ) < 0 := by
        intro h; exact hH (by exact_mod_cast h)
      simp only [hHq, if_false]
      refine ⟨((hd : ℤ) - (ha : ℤ) - 1).toNat, ((md : ℤ) - (ma : ℤ) + 60).toNat,
        by omega, by omega, ?_, ?_⟩
      · split_ifs <;> push_cast <;> omega
      · have e1 : ((((hd : ℤ) - (ha : ℤ) - 1).toNat : ℕ) : ℚ) =
            (((hd : ℤ) - (ha : ℤ) - 1 : ℤ) : ℚ) := by
          rw [← Int.cast_natCast, Int.toNat_of_nonneg (by omega)]
        have e2 : ((((md : ℤ) - (ma : ℤ) + 60).toNat : ℕ) : ℚ) =
            (((md : ℤ) - (ma : ℤ) + 60 : ℤ) : ℚ) := by
          rw [← Int.cast_natCast, Int.toNat_of_nonneg (by omega)]
        rw [e1, e2]
  · have hMq : ¬ (((md : ℤ) - (ma : ℤ) : ℤ) : ℚ) < 0 := by
      intro h; exact hM (by exact_mod_cast h)
    simp only [hMq, if_false]
    by_cases hH : (hd : ℤ) - (ha : ℤ) < 0
    · have hHq : (((hd : ℤ) - (ha : ℤ) : ℤ) : ℚ) < 0 := by exact_mod_cast hH
      simp only [hHq, if_true]
      rw [hadd24 _ (by rw [abs_lt]; constructor <;> omega)]
      refine ⟨((hd : ℤ) - (ha : ℤ) + 24).toNat, ((md : ℤ) - (ma : ℤ)).toNat,
        by omega, by omega, ?_, ?_⟩
      · split_ifs <;> push_cast <;> omega
      · have e1 : ((((hd : ℤ) - (ha : ℤ) + 24).toNat : ℕ) : ℚ) =
            (((hd : ℤ) - (ha : ℤ) + 24 : ℤ) : ℚ) := by
          rw [← Int.cast_natCast, Int.toNat_of_nonneg (by omega)]
        have e2 : ((((md : ℤ) - (ma : ℤ)).toNat : ℕ) : ℚ) =
            (((md : ℤ) - (ma : ℤ) : ℤ) : ℚ) := by
          rw [← Int.cast_natCast, Int.toNat_of_nonneg (by omega)]
        rw [e1, e2]
    · have hHq : ¬ (((hd : ℤ) - (ha : ℤ) : ℤ) : ℚ) < 0 := by
        intro h; exact hH (by exact_mod_cast h)
      simp only [hHq, if_false]
      refine ⟨((hd : ℤ) - (ha : ℤ)).toNat, ((md : ℤ) - (ma : ℤ)).toNat,
        by omega, by omega, ?_, ?_⟩
      · split_ifs <;> push_cast <;> omega
      · have e1 : ((((hd : ℤ) - (ha : ℤ)).toNat : ℕ) : ℚ) =
            (((hd : ℤ) - (ha : ℤ) : ℤ) : ℚ) := by
          rw [← Int.cast_natCast, Int.toNat_of_nonneg (by omega)]
        have e2 : ((((md : ℤ) - (ma : ℤ)).toNat : ℕ) : ℚ) =
            (((md : ℤ) - (ma : ℤ) : ℤ) : ℚ) := by
          rw [← Int.cast_natCast, Int.toNat_of_nonneg (by omega)]
        rw [e1, e2]

/-- C6. For every date and every two valid `HH:MM` times, the script `calculateHours`
returns the number of hours from arrival to departure, `(d - a) / 60` minutes
when the departure is not earlier and `(d - a + 24 * 60) / 60` when it is (as the
binary64 number nearest to it); arrival 23:30 with departure 00:15 gives 0.75. -/
theorem calculateHours_overnight (zone date : ℤ) (a d : Str)
    (ha : isHHMM a = true) (hd : isHHMM d = true) :
    AttendanceScript.calculateHours zone date a d =
        some (rn (((if minutesOfDay a ≤ minutesOfDay d then minutesOfDay d - minutesOfDay a
          else minutesOfDay d - minutesOfDay a + 24 * 60 : ℤ) : ℚ) / 60)) ∧
      AttendanceScript.calculateHours zone date "23:30".toList "00:15".toList = some (3 / 4) := by
  constructor
  · obtain ⟨h1, m1, b1, b2, rfl, e1⟩ := isHHMM_cases a ha
    obtain ⟨h2, m2, b3, b4, rfl, e2⟩ := isHHMM_cases d hd
    rw [e1, e2]
    exact calculateHours_hhmm zone date h1 m1 h2 m2 b1 b2 b3 b4
  · have h := calculateHours_hhmm zone date 23 30 0 15 (by decide) (by decide) (by decide)
      (by decide)
    have e1 : hhmm 23 30 = "23:30".toList := by decide
    have e2 : hhmm 0 15 = "00:15".toList := by decide
    have e3 : rn (((if ((60 * 23 + 30 : ℕ) : ℤ) ≤ ((60 * 0 + 15 : ℕ) : ℤ)
        then ((60 * 0 + 15 : ℕ) : ℤ) - ((60 * 23 + 30 : ℕ) : ℤ)
        else ((60 * 0 + 15 : ℕ) : ℤ) - ((60 * 23 + 30 : ℕ) : ℤ) + 24 * 60 : ℤ) : ℚ) / 60) = 3 / 4 := by
      decide!
    rw [e1, e2, e3] at h
    exact h

theorem calculateHours_overnight_witness :
    AttendanceScript.calculateHours GMT3 0 "09:00".toList "18:00".toList =
        some (rn (((if minutesOfDay "09:00".toList ≤ minutesOfDay "18:00".toList
          then minutesOfDay "18:00".toList - minutesOfDay "09:00".toList
          else minutesOfDay "18:00".toList - minutesOfDay "09:00".toList + 24 * 60 : ℤ) : ℚ) / 60)) ∧
      AttendanceScript.calculateHours GMT3 0 "23:30".toList "00:15".toList = some (3 / 4) :=
  calculateHours_overnight GMT3 0 "09:00".toList "18:00".toList (by decide) (by decide)

/-- C10, as the code has it. For every two valid `HH:MM` times and every date the
front-end calculator and the script calculator both return a number of hours at
least 0 and below 24, and the two numbers differ by at most `2 ^ (-47)`: they are
two roundings of the same exact value. -/
theorem calculateHours_agree (zone date : ℤ) (a d : Str)
    (ha : isHHMM a = true) (hd : isHHMM d = true) :
    ∃ x y : ℚ, MainJs.calculateHours a d = some (some x) ∧
      AttendanceScript.calculateHours zone date a d = some y ∧
      |x - y| ≤ 1 / 2 ^ 47 ∧ 0 ≤ x ∧ x < 24 ∧ 0 ≤ y ∧ y < 24 := by
  obtain ⟨h1, m1, b1, b2, rfl, _⟩ := isHHMM_cases a ha
  obtain ⟨h2, m2, b3, b4, rfl, _⟩ := isHHMM_cases d hd
  obtain ⟨H, M, hH, hM, hHM, hmain⟩ := mainCalculateHours_hhmm h1 m1 h2 m2 b1 b2 b3 b4
  have hscript := calculateHours_hhmm zone date h1 m1 h2 m2 b1 b2 b3 b4
  rw [← hHM] at hscript
  have hB := hours_roundings H M hH hM
  simp only at hB
  exact ⟨_, _, hmain, hscript, hB⟩

theorem calculateHours_agree_witness :
    ∃ x y : ℚ, MainJs.calculateHours "23:30".toList "00:15".toList = some (some x) ∧
      AttendanceScript.calculateHours GMT3 0 "23:30".toList "00:15".toList = some y ∧
      |x - y| ≤ 1 / 2 ^ 47 ∧ 0 ≤ x ∧ x < 24 ∧ 0 ≤ y ∧ y < 24 :=
  calculateHours_agree GMT3 0 "23:30".toList "00:15".toList (by decide) (by decide)

/-- C10 as stated fails: from 00:00 to 01:13 the front-end calculator returns
`1 + 13 / 60` rounded twice, 1.2166666666666668, and the script calculator returns
`4380000 / 3600000` rounded once, 1.2166666666666666. -/
theorem calculateHours_differ :
    MainJs.calculateHours "00:00".toList "01:13".toList =
        some (some (684922443329263 / 562949953421312)) ∧
      AttendanceScript.calculateHours GMT3 0 "00:00".toList "01:13".toList =
        some (5479379546634103 / 4503599627370496) ∧
      (684922443329263 / 562949953421312 : ℚ) ≠ 5479379546634103 / 4503599627370496 := by
  decide!

end SKUD

namespace SKUD

/-! ## The sheet -/

theorem getValue_setValue (s : Sheet) (r c : Nat) (v : Str) (i j : Nat) :
    (s.setValue r c v).getValue i j =
      if i = r ∧ j = c then (if 1 ≤ r ∧ 1 ≤ c then v else []) else s.getValue i j := by
  unfold Sheet.setValue Sheet.getValue
  simp only
  by_cases h : i = r ∧ j = c
  · obtain ⟨rfl, rfl⟩ := h
    simp only [and_self, if_true]
    by_cases h1 : 1 ≤ i ∧ 1 ≤ j
    · have h2 : 1 ≤ i ∧ i ≤ max s.rows i ∧ 1 ≤ j ∧ j ≤ max s.cols j :=
        ⟨h1.1, le_max_right _ _, h1.2, le_max_right _ _⟩
      simp only [h1, h2, and_self, if_true]
    · have h2 : ¬ (1 ≤ i ∧ i ≤ max s.rows i ∧ 1 ≤ j ∧ j ≤ max s.cols j) := by
        intro h3; exact h1 ⟨h3.1, h3.2.2.1⟩
      simp only [h1, h2, if_false]
  · simp only [h, if_false]
    by_cases h1 : 1 ≤ i ∧ i ≤ max s.rows r ∧ 1 ≤ j ∧ j ≤ max s.cols c
    · simp only [h1, and_self, if_true]
    · simp only [h1, if_false]
      have h2 : ¬ (1 ≤ i ∧ i ≤ s.rows ∧ 1 ≤ j ∧ j ≤ s.cols) := by
        intro h3
        exact h1 ⟨h3.1, le_trans h3.2.1 (le_max_left _ _), h3.2.2.1,
          le_trans h3.2.2.2 (le_max_left _ _)⟩
      simp only [h2, if_false]

theorem getValue_setValue_ne (s : Sheet) (r c : Nat) (v : Str) (i j : Nat)
    (h : ¬ (i = r ∧ j = c)) : (s.setValue r c v).getValue i j = s.getValue i j := by
  rw [getValue_setValue]; simp only [h, if_false]

theorem getValue_setValue_self (s : Sheet) (r c : Nat) (v : Str) (hr : 1 ≤ r) (hc : 1 ≤ c) :
    (s.setValue r c v).getValue r c = v := by
  rw [getValue_setValue]; simp [hr, hc]

theorem getValue_bounds (s : Sheet) (r c : Nat) (h : s.getValue r c ≠ []) :
    1 ≤ r ∧ r ≤ s.rows ∧ 1 ≤ c ∧ c ≤ s.cols := by
  unfold Sheet.getValue at h
  by_contra hb
  simp only [hb, if_false] at h
  exact h rfl

theorem anyUpTo_of (p : Nat → Bool) (k : Nat) (hk : 1 ≤ k) (hp : p k = true) :
    ∀ n, k ≤ n → anyUpTo p n = true := by
  intro n
  induction n with
  | zero => intro h; omega
  | succ n ih =>
    intro h
    unfold anyUpTo
    by_cases hkn : k = n + 1
    · subst hkn; simp [hp]
    · simp [ih (by omega)]

theorem le_lastIndexWhere (p : Nat → Bool) (k : Nat) (hp : p k = true) :
    ∀ n, k ≤ n → k ≤ lastIndexWhere p n := by
  intro n
  induction n with
  | zero => intro h; omega
  | succ n ih =>
    intro h
    unfold lastIndexWhere
    by_cases hkn : k = n + 1
    · subst hkn; simp [hp]
    · split_ifs
      · exact h
      · exact ih (by omega)

theorem lastIndexWhere_le (p : Nat → Bool) : ∀ n, lastIndexWhere p n ≤ n := by
  intro n
  induction n with
  | zero => simp [lastIndexWhere]
  | succ n ih =>
    unfold lastIndexWhere
    split_ifs
    · exact le_rfl
    · omega

theorem le_getLastRow (s : Sheet) (r c : Nat) (h : s.getValue r c ≠ []) : r ≤ s.getLastRow := by
  obtain ⟨h1, h2, h3, h4⟩ := getValue_bounds s r c h
  unfold Sheet.getLastRow
  apply le_lastIndexWhere _ _ _ _ h2
  apply anyUpTo_of _ c h3 _ _ h4
  simpa using h

theorem le_getLastColumn (s : Sheet) (r c : Nat) (h : s.getValue r c ≠ []) :
    c ≤ s.getLastColumn := by
  obtain ⟨h1, h2, h3, h4⟩ := getValue_bounds s r c h
  unfold Sheet.getLastColumn
  apply le_lastIndexWhere _ _ _ _ h4
  apply anyUpTo_of _ r h1 _ _ h2
  simpa using h

/-! ## `indexOf` -/

theorem indexOf_eq_some (v : Str) : ∀ (xs : List Str) (k : Nat),
    indexOf v xs = some k ↔ xs.get? k = some v ∧ ∀ j, j < k → xs.get? j ≠ some v := by
  intro xs
  induction xs with
  | nil => intro k; simp [indexOf]
  | cons x xs ih =>
    intro k
    unfold indexOf
    by_cases hx : x = v
    · simp only [hx, if_true]
      constructor
      · intro h
        have hk : k = 0 := by simpa using h.symm
        subst hk
        simp
      · rintro ⟨h1, h2⟩
        cases k with
        | zero => rfl
        | succ k => exact absurd (by simp) (h2 0 (by omega))
    · simp only [hx, if_false]
      cases k with
      | zero =>
        simp only [Option.map_eq_some', List.get?_cons_zero, Option.some.injEq]
        constructor
        · rintro ⟨a, _, ha⟩; omega
        · rintro ⟨h1, _⟩; exact absurd h1 hx
      | succ k =>
        have := ih k
        simp only [Option.map_eq_some', Nat.add_right_cancel_iff, exists_eq_right,
          List.get?_cons_succ]
        rw [this]
        constructor
        · rintro ⟨h1, h2⟩
          refine ⟨h1, ?_⟩
          intro j hj
          cases j with
          | zero => simp [hx]
          | succ j => simpa using h2 j (by omega)
        · rintro ⟨h1, h2⟩
          refine ⟨h1, ?_⟩
          intro j hj
          simpa using h2 (j + 1) (by omega)

theorem indexOf_eq_none (v : Str) : ∀ (xs : List Str),
    indexOf v xs = none ↔ ∀ j, xs.get? j ≠ some v := by
  intro xs
  induction xs with
  | nil => simp [indexOf]
  | cons x xs ih =>
    unfold indexOf
    by_cases hx : x = v
    · simp only [hx, if_true]
      constructor
      · intro h; cases h
      · intro h; exact absurd (by simp) (h 0)
    · simp only [hx, if_false, Option.map_eq_none']
      rw [ih]
      constructor
      · intro h j
        cases j with
        | zero => simp [hx]
        | succ j => simpa using h j
      · intro h j
        simpa using h (j + 1)

theorem get?_map_range (f : Nat → Str) (n j : Nat) :
    ((List.range n).map f).get? j = if j < n then some (f j) else none := by
  by_cases h : j < n
  · simp [h, List.get?_eq_getElem?, List.getElem?_map, List.getElem?_range h]
  · simp [h, List.get?_eq_getElem?, List.getElem?_map]
    omega

theorem indexOf_range_some (v : Str) (f : Nat → Str) (n k : Nat) :
    indexOf v ((List.range n).map f) = some k ↔
      k < n ∧ f k = v ∧ ∀ j, j < k → f j ≠ v := by
  rw [indexOf_eq_some]
  simp only [get?_map_range]
  constructor
  · rintro ⟨h1, h2⟩
    by_cases hk : k < n
    · simp only [hk, if_true, Option.some.injEq] at h1
      refine ⟨hk, h1, ?_⟩
      intro j hj
      have := h2 j hj
      simp only [show j < n by omega, if_true, ne_eq, Option.some.injEq] at this
      exact this
    · simp [hk] at h1
  · rintro ⟨h1, h2, h3⟩
    refine ⟨by simp [h1, h2], ?_⟩
    intro j hj
    simp only [show j < n by omega, if_true, ne_eq, Option.some.injEq]
    exact h3 j hj

theorem indexOf_range_none (v : Str) (f : Nat → Str) (n : Nat) :
    indexOf v ((List.range n).map f) = none ↔ ∀ j, j < n → f j ≠ v := by
  rw [indexOf_eq_none]
  simp only [get?_map_range]
  constructor
  · intro h j hj
    have := h j
    simp only [hj, if_true, ne_eq, Option.some.injEq] at this
    exact this
  · intro h j
    by_cases hj : j < n
    · simp only [hj, if_true, ne_eq, Option.some.injEq]; exact h j hj
    · simp [hj]

end SKUD

namespace SKUD

/-! ## Reading a cell -/

theorem splitGo_comma (pre rest : Str) (h : ',' ∉ pre) : ∀ cur : Str,
    splitGo [','] (pre ++ ',' :: rest) 0 cur = (cur.reverse ++ pre) :: splitGo [','] rest 0 [] := by
  induction pre with
  | nil => intro cur; simp [splitGo, List.isPrefixOf]
  | cons c cs ih =>
    intro cur
    have hc : ¬ (',' = c) := by
      intro hEq; exact h (by rw [hEq]; exact List.mem_cons_self _ _)
    have hcs : ',' ∉ cs := by
      intro hm; exact h (List.mem_cons_of_mem _ hm)
    simp only [List.cons_append, splitGo, List.isPrefixOf, beq_iff_eq, hc, Bool.and_true,
      Bool.false_eq_true, if_false, decide_False]
    have := ih hcs (c :: cur)
    simp only [List.append_eq] at this ⊢
    rw [this]
    simp

theorem splitGo_no_comma (s : Str) (h : ',' ∉ s) : ∀ cur : Str,
    splitGo [','] s 0 cur = [cur.reverse ++ s] := by
  induction s with
  | nil => intro cur; simp [splitGo]
  | cons c cs ih =>
    intro cur
    have hc : ¬ (',' = c) := by
      intro hEq; exact h (by rw [hEq]; exact List.mem_cons_self _ _)
    have hcs : ',' ∉ cs := by
      intro hm; exact h (List.mem_cons_of_mem _ hm)
    simp only [splitGo, List.isPrefixOf, beq_iff_eq, hc, Bool.and_true,
      Bool.false_eq_true, if_false, decide_False]
    rw [ih hcs]
    simp

set_option maxHeartbeats 4000000 in
set_option maxRecDepth 100000 in
/-- What the script reads back from a time of day it wrote: no comma and no dash in it,
and the text after `": "` of either half of a cell is the time itself. -/
theorem hhmm_fields (h : Nat) (hh : h < 24) : ∀ m : Fin 60,
    ',' ∉ hhmm h m.val ∧ '-' ∉ hhmm h m.val ∧ isHHMM (hhmm h m.val) = true ∧
    (split (['П', 'р', 'и', 'х', 'о', 'д', ':', ' '] ++ hhmm h m.val) [':', ' ']).get? 1 =
      some (hhmm h m.val) ∧
    (split ([' ', 'У', 'х', 'о', 'д', ':', ' '] ++ hhmm h m.val) [':', ' ']).get? 1 =
      some (hhmm h m.val) := by
  interval_cases h <;> decide!

theorem cellText_eq (a d : Str) :
    cellText a d = (['П', 'р', 'и', 'х', 'о', 'д', ':', ' '] ++ a) ++
      ',' :: ([' ', 'У', 'х', 'о', 'д', ':', ' '] ++ d) := by
  simp [cellText]

theorem cellText_ne_nil (a d : Str) : cellText a d ≠ [] := by
  simp [cellText]

theorem includes_cellText (a d : Str) : includes (cellText a d) strArrival = true := by
  simp [cellText, includes, strArrival, List.isPrefixOf]

theorem split_cellText (a d : Str) (ha : ',' ∉ a) (hd : ',' ∉ d) :
    split (cellText a d) [','] =
      [['П', 'р', 'и', 'х', 'о', 'д', ':', ' '] ++ a, [' ', 'У', 'х', 'о', 'д', ':', ' '] ++ d] := by
  unfold split
  rw [cellText_eq, splitGo_comma _ _ (by simpa using ha), splitGo_no_comma _ (by simpa using hd)]
  simp

theorem split_cellText_head (a d : Str) (ha : ',' ∉ a) :
    (split (cellText a d) [',']).headD [] = ['П', 'р', 'и', 'х', 'о', 'д', ':', ' '] ++ a := by
  unfold split
  rw [cellText_eq, splitGo_comma _ _ (by simpa using ha)]
  simp

/-- The arrival time the script reads back from a cell it wrote. -/
theorem arrivalField_cellText (a d : Str) (ha : isHHMM a = true) :
    arrivalField (cellText a d) = some a := by
  obtain ⟨h, m, b1, b2, rfl, _⟩ := isHHMM_cases a ha
  have hf := hhmm_fields h b1 ⟨m, b2⟩
  simp only at hf
  unfold arrivalField
  rw [split_cellText_head _ _ hf.1]
  exact hf.2.2.2.1

theorem isHHMM_hhmm (h m : Nat) (b1 : h < 24) (b2 : m < 60) : isHHMM (hhmm h m) = true :=
  (hhmm_fields h b1 ⟨m, b2⟩).2.2.1

theorem hourOf_lt (off t : ℤ) : hourOf off t < 24 := by
  unfold hourOf msOfDay msPerDay
  have h1 : 0 ≤ (t + off) % 86400000 := Int.emod_nonneg _ (by norm_num)
  have h2 : (t + off) % 86400000 < 86400000 := Int.emod_lt_of_pos _ (by norm_num)
  omega

theorem minuteOf_lt (off t : ℤ) : minuteOf off t < 60 := by
  unfold minuteOf msOfDay msPerDay
  have h1 : 0 ≤ (t + off) % 86400000 / 60000 % 60 := Int.emod_nonneg _ (by norm_num)
  have h2 : (t + off) % 86400000 / 60000 % 60 < 60 := Int.emod_lt_of_pos _ (by norm_num)
  omega

theorem isHHMM_formatTime (t : ℤ) : isHHMM (formatTime t) = true :=
  isHHMM_hhmm _ _ (hourOf_lt GMT3 t) (minuteOf_lt GMT3 t)

end SKUD

namespace SKUD

/-! ## `doPost`: the lookups -/

theorem formatHeader_ne_nil (P : Platform) (t : ℤ) : formatHeader P t ≠ [] := by
  unfold formatHeader
  intro h
  have := congrArg List.length h
  simp at this

theorem employeeOf_cases (serial name : Str) (h : employeeOf serial = some name) :
    name = "Иванов".toList ∨ name = "Петров".toList := by
  unfold employeeOf EMPLOYEES at h
  simp only [List.find?] at h
  split at h
  · left; simpa using h.symm
  · split at h
    · right; simpa using h.symm
    · simp at h

theorem employeeOf_ne_nil (serial name : Str) (h : employeeOf serial = some name) : name ≠ [] := by
  rcases employeeOf_cases serial name h with h1 | h1 <;> rw [h1] <;> decide

theorem lookup_name (serial name : Str) :
    lookup serial = some (Member.name name) ↔ employeeOf serial = some name := by
  unfold lookup
  cases h : employeeOf serial with
  | none =>
    simp only [reduceCtorEq, iff_false]
    split_ifs <;> simp
  | some n => simp

theorem dateColumn_found (sheet : Sheet) (header : Str) (c : Nat) (hc : 2 ≤ c)
    (hne : header ≠ []) (hv : sheet.getValue 1 c = header)
    (hfirst : ∀ j, 2 ≤ j → j < c → sheet.getValue 1 j ≠ header) :
    dateColumn sheet header = (c, sheet) := by
  have hle : c ≤ sheet.getLastColumn := le_getLastColumn sheet 1 c (by rw [hv]; exact hne)
  have hidx : indexOf header
      ((List.range (sheet.getLastColumn - 1)).map (fun k => sheet.getValue 1 (k + 2))) =
      some (c - 2) := by
    rw [indexOf_range_some]
    refine ⟨by omega, ?_, ?_⟩
    · simp only [show c - 2 + 2 = c by omega]; exact hv
    · intro j hj; exact hfirst (j + 2) (by omega) (by omega)
  unfold dateColumn
  simp only [hidx, show c - 2 + 2 = c by omega]

theorem dateColumn_frame (sheet : Sheet) (header : Str) (i j : Nat) (hi : 2 ≤ i) :
    (dateColumn sheet header).2.getValue i j = sheet.getValue i j := by
  unfold dateColumn
  simp only
  split
  · rfl
  · simp only
    exact getValue_setValue_ne _ _ _ _ _ _ (by omega)

theorem dateColumn_fst_ge (sheet : Sheet) (header : Str) : 2 ≤ (dateColumn sheet header).1 := by
  unfold dateColumn
  simp only
  split <;> simp

theorem dateColumn_of_exists (sheet : Sheet) (header : Str) (hne : header ≠ [])
    (h : ∃ c, 2 ≤ c ∧ sheet.getValue 1 c = header) : (dateColumn sheet header).2 = sheet := by
  obtain ⟨c, hc, hv⟩ := h
  have hle : c ≤ sheet.getLastColumn := le_getLastColumn sheet 1 c (by rw [hv]; exact hne)
  unfold dateColumn
  simp only
  split
  · rfl
  · next hnone =>
    rw [indexOf_range_none] at hnone
    exact absurd (by simp only [show c - 2 + 2 = c by omega]; exact hv)
      (hnone (c - 2) (by omega))

theorem employeeRow_found (sheet : Sheet) (name : Str) (r : Nat) (hr : 2 ≤ r)
    (hne : name ≠ []) (hv : sheet.getValue r 1 = name)
    (hfirst : ∀ i, 2 ≤ i → i < r → sheet.getValue i 1 ≠ name) :
    employeeRow sheet name = (r, sheet) := by
  have hle : r ≤ sheet.getLastRow := le_getLastRow sheet r 1 (by rw [hv]; exact hne)
  have hidx : indexOf name
      ((List.range (sheet.getLastRow - 1)).map (fun k => sheet.getValue (k + 2) 1)) =
      some (r - 2) := by
    rw [indexOf_range_some]
    refine ⟨by omega, ?_, ?_⟩
    · simp only [show r - 2 + 2 = r by omega]; exact hv
    · intro j hj; exact hfirst (j + 2) (by omega) (by omega)
  unfold employeeRow
  simp only [hidx, show r - 2 + 2 = r by omega]

theorem employeeRow_frame (sheet : Sheet) (name : Str) (i j : Nat) (hj : 2 ≤ j) :
    (employeeRow sheet name).2.getValue i j = sheet.getValue i j := by
  unfold employeeRow
  simp only
  split
  · rfl
  · simp only
    exact getValue_setValue_ne _ _ _ _ _ _ (by omega)

theorem employeeRow_of_exists (sheet : Sheet) (name : Str) (hne : name ≠ [])
    (h : ∃ r, 2 ≤ r ∧ sheet.getValue r 1 = name) : (employeeRow sheet name).2 = sheet := by
  obtain ⟨r, hr, hv⟩ := h
  have hle : r ≤ sheet.getLastRow := le_getLastRow sheet r 1 (by rw [hv]; exact hne)
  unfold employeeRow
  simp only
  split
  · rfl
  · next hnone =>
    rw [indexOf_range_none] at hnone
    exact absurd (by simp only [show r - 2 + 2 = r by omega]; exact hv)
      (hnone (r - 2) (by omega))

/-- The names column below the header row after the row lookup: the old cell, or the
name just written. -/
theorem employeeRow_names (sheet : Sheet) (name : Str) (i : Nat) :
    (employeeRow sheet name).2.getValue i 1 = sheet.getValue i 1 ∨
      (employeeRow sheet name).2.getValue i 1 = name := by
  unfold employeeRow
  simp only
  split
  · left; rfl
  · simp only
    rw [getValue_setValue]
    split_ifs
    · right; rfl
    · left
      rename_i h1 h2
      omega
    · left; rfl

/-! ## `doPost`: unfolding -/

theorem doPost_name (P : Platform) (st : State) (e : Event) (name : Str) (dateTime : ℤ)
    (h1 : lookup e.serial = some (Member.name name)) (h2 : newDate P e.time = some dateTime) :
    doPost P st e =
      match debounce P st.props (e.serial ++ '_' :: formatDate dateTime) dateTime with
      | some lastDateTime =>
        (Outcome.ignored name (formatTimeSec lastDateTime),
          { sheet := (employeeRow (dateColumn st.sheet (formatHeader P dateTime)).2 name).2
            props := st.props })
      | none =>
        (Outcome.success name
            (recordScan (employeeRow (dateColumn st.sheet (formatHeader P dateTime)).2 name).2
              (employeeRow (dateColumn st.sheet (formatHeader P dateTime)).2 name).1
              (dateColumn st.sheet (formatHeader P dateTime)).1 (formatTime dateTime)).2
            (formatTime dateTime) (formatDate dateTime),
          { sheet :=
              (recordScan (employeeRow (dateColumn st.sheet (formatHeader P dateTime)).2 name).2
                (employeeRow (dateColumn st.sheet (formatHeader P dateTime)).2 name).1
                (dateColumn st.sheet (formatHeader P dateTime)).1 (formatTime dateTime)).1
            props := setProperty st.props (e.serial ++ '_' :: formatDate dateTime) e.time }) := by
  unfold doPost
  simp only [h1, h2]

theorem doPost_unknown (P : Platform) (st : State) (e : Event) (h : lookup e.serial = none) :
    doPost P st e = (Outcome.unknown e.serial, st) := by
  unfold doPost
  simp only [h]

theorem doPost_invalid (P : Platform) (st : State) (e : Event) (m : Member)
    (h1 : lookup e.serial = some m) (h2 : newDate P e.time = none) :
    doPost P st e = (Outcome.exception, st) := by
  unfold doPost
  simp only [h1, h2]

theorem doPost_inherited (P : Platform) (st : State) (e : Event) (dateTime : ℤ)
    (h1 : lookup e.serial = some Member.inherited) (h2 : newDate P e.time = some dateTime) :
    doPost P st e = (Outcome.exception,
      { sheet := (dateColumn st.sheet (formatHeader P dateTime)).2, props := st.props }) := by
  unfold doPost
  simp only [h1, h2]

/-- Whenever `doPost` answers or records anything for a name, that name is registered
and the time was read. -/
theorem doPost_cases (P : Platform) (e : Event) :
    (lookup e.serial = none) ∨
    (∃ m, lookup e.serial = some m ∧ newDate P e.time = none) ∨
    (∃ t, lookup e.serial = some Member.inherited ∧ newDate P e.time = some t) ∨
    (∃ name t, lookup e.serial = some (Member.name name) ∧ newDate P e.time = some t) := by
  cases h1 : lookup e.serial with
  | none => left; rfl
  | some m =>
    cases h2 : newDate P e.time with
    | none => right; left; exact ⟨m, rfl, rfl⟩
    | some t =>
      cases m with
      | name n => right; right; right; exact ⟨n, t, rfl, rfl⟩
      | inherited => right; right; left; exact ⟨t, rfl, rfl⟩

end SKUD

namespace SKUD

/-! ## `doPost`: the claims -/

theorem formatDate_congr (t1 t2 : ℤ) (h : dayNumber GMT3 t2 = dayNumber GMT3 t1) :
    formatDate t2 = formatDate t1 := by
  unfold formatDate; rw [h]

theorem formatHeader_congr (P : Platform) (t1 t2 : ℤ) (h : dayNumber GMT3 t2 = dayNumber GMT3 t1) :
    formatHeader P t2 = formatHeader P t1 := by
  unfold formatHeader; rw [h, formatDate_congr t1 t2 h]

theorem newDate_ne_nil (P : Platform) (s : Str) (t : ℤ) (h : newDate P s = some t) : s ≠ [] := by
  intro hs
  simp [newDate, hs] at h

theorem timeDiff_lt (t1 t2 : ℤ) (h : t2 - t1 < 60000) :
    jsDiv (jsSub (t2 : ℚ) (t1 : ℚ)) (1000 * 60) < MIN_INTERVAL_MINUTES := by
  unfold MIN_INTERVAL_MINUTES jsDiv jsSub
  rw [← Int.cast_sub]
  by_cases hk : t2 - t1 ≤ 0
  · have h1 : rn ((t2 - t1 : ℤ) : ℚ) ≤ 0 := rn_nonpos _ (by exact_mod_cast hk)
    have h2 : rn ((t2 - t1 : ℤ) : ℚ) / (1000 * 60) ≤ 0 :=
      div_nonpos_of_nonpos_of_nonneg h1 (by norm_num)
    have h3 := rn_nonpos _ h2
    linarith
  · rw [rn_intCast _ (by rw [abs_lt]; constructor <;> omega)]
    apply rn_lt_one
    · apply div_pos
      · exact_mod_cast (by omega : 0 < t2 - t1)
      · norm_num
    · rw [div_le_div_iff₀ (by norm_num) (by norm_num)]
      have h1 : ((t2 - t1 : ℤ) : ℚ) ≤ ((59999 : ℤ) : ℚ) := by exact_mod_cast (by omega : t2 - t1 ≤ 59999)
      push_cast at h1 ⊢
      linarith

theorem debounce_of_lt (P : Platform) (props : Properties) (key time1 : Str) (t1 t2 : ℤ)
    (hp : props key = some time1) (ht1 : newDate P time1 = some t1) (hlt : t2 - t1 < 60000) :
    debounce P props key t2 = some t1 := by
  unfold debounce
  simp only [hp, newDate_ne_nil P time1 t1 ht1, if_false, ht1, timeDiff_lt t1 t2 hlt, if_true]

theorem recordScan_empty (sheet : Sheet) (r c : Nat) (t : Str) (h : sheet.getValue r c = []) :
    recordScan sheet r c t = (sheet.setValue r c (cellText t ['-']), evArrival) := by
  unfold recordScan
  simp only [h, true_or, if_true]
  rfl

theorem recordScan_cellText (sheet : Sheet) (r c : Nat) (t a d : Str)
    (h : sheet.getValue r c = cellText a d) (ha : isHHMM a = true) :
    recordScan sheet r c t = (sheet.setValue r c (cellText a t), evDeparture) := by
  unfold recordScan
  simp only [h, cellText_ne_nil, includes_cellText, false_or, Bool.true_eq_false, if_false,
    arrivalField_cellText a d ha, orUndefined, Option.getD_some]
  rfl

theorem Located.setValue (sheet : Sheet) (name header : Str) (r c : Nat) (v : Str)
    (h : Located sheet name header r c) : Located (sheet.setValue r c v) name header r c := by
  obtain ⟨h1, h2, h3, h4, h5, h6⟩ := h
  refine ⟨h1, h2, ?_, ?_, ?_, ?_⟩
  · rw [getValue_setValue_ne _ _ _ _ _ _ (by omega)]; exact h3
  · rw [getValue_setValue_ne _ _ _ _ _ _ (by omega)]; exact h4
  · intro i hi1 hi2
    rw [getValue_setValue_ne _ _ _ _ _ _ (by omega)]; exact h5 i hi1 hi2
  · intro j hj1 hj2
    rw [getValue_setValue_ne _ _ _ _ _ _ (by omega)]; exact h6 j hj1 hj2

/-- One accepted scan on a sheet that has the date column and the employee row. -/
theorem doPost_located (P : Platform) (st : State) (e : Event) (name : Str) (t : ℤ) (r c : Nat)
    (hreg : employeeOf e.serial = some name) (ht : newDate P e.time = some t)
    (hloc : Located st.sheet name (formatHeader P t) r c)
    (hacc : (doPost P st e).1.accepted = true) :
    doPost P st e =
      (Outcome.success name (recordScan st.sheet r c (formatTime t)).2 (formatTime t)
          (formatDate t),
        { sheet := (recordScan st.sheet r c (formatTime t)).1
          props := setProperty st.props (e.serial ++ '_' :: formatDate t) e.time }) := by
  obtain ⟨h1, h2, h3, h4, h5, h6⟩ := hloc
  have hcol := dateColumn_found st.sheet (formatHeader P t) c h2 (formatHeader_ne_nil P t) h4 h6
  have hrow := employeeRow_found st.sheet name r h1 (employeeOf_ne_nil _ _ hreg) h3 h5
  have hdo := doPost_name P st e name t ((lookup_name _ _).mpr hreg) ht
  rw [hcol] at hdo
  simp only at hdo
  rw [hrow] at hdo
  simp only at hdo
  rw [hdo] at hacc ⊢
  cases hdeb : debounce P st.props (e.serial ++ '_' :: formatDate t) t with
  | some last => rw [hdeb] at hacc; simp [Outcome.accepted] at hacc
  | none => rfl

end SKUD

namespace SKUD

theorem employeeRow_absent (sheet : Sheet) (name : Str)
    (h : ∀ i, 2 ≤ i → sheet.getValue i 1 ≠ name) :
    employeeRow sheet name =
      (sheet.getLastRow + 1, sheet.setValue (sheet.getLastRow + 1) 1 name) := by
  have hidx : indexOf name
      ((List.range (sheet.getLastRow - 1)).map (fun k => sheet.getValue (k + 2) 1)) = none := by
    rw [indexOf_range_none]
    intro j _
    exact h (j + 2) (by omega)
  unfold employeeRow
  simp only [hidx]

/-- The first accepted scan into an empty cell: an arrival, written at the row and the
column of the employee and the date, which are then both on the sheet. -/
theorem doPost_first_scan (P : Platform) (st : State) (e : Event) (name : Str) (t : ℤ)
    (r c : Nat)
    (hreg : employeeOf e.serial = some name) (ht : newDate P e.time = some t)
    (hcol : DateColumnAt st.sheet (formatHeader P t) c)
    (hrow : EmployeeRowAt st.sheet name r)
    (hempty : st.sheet.getValue r c = [])
    (hacc : (doPost P st e).1.accepted = true) :
    (doPost P st e).1 = Outcome.success name evArrival (formatTime t) (formatDate t) ∧
    Located (doPost P st e).2.sheet name (formatHeader P t) r c ∧
    (doPost P st e).2.sheet.getValue r c = cellText (formatTime t) ['-'] := by
  obtain ⟨hc, hcv, hcf⟩ := hcol
  rcases hrow with ⟨hr, hrv, hrf⟩ | ⟨hr, habs⟩
  · have hloc : Located st.sheet name (formatHeader P t) r c := ⟨hr, hc, hrv, hcv, hrf, hcf⟩
    have step := doPost_located P st e name t r c hreg ht hloc hacc
    rw [recordScan_empty _ _ _ _ hempty] at step
    rw [step]
    exact ⟨rfl, Located.setValue _ _ _ _ _ _ hloc,
      getValue_setValue_self _ _ _ _ (by omega) (by omega)⟩
  · have hlast : 1 ≤ st.sheet.getLastRow :=
      le_getLastRow st.sheet 1 c (by rw [hcv]; exact formatHeader_ne_nil P t)
    have hr2 : 2 ≤ r := by omega
    have hcolf := dateColumn_found st.sheet (formatHeader P t) c hc (formatHeader_ne_nil P t)
      hcv hcf
    have hrowf := employeeRow_absent st.sheet name habs
    have hdo := doPost_name P st e name t ((lookup_name _ _).mpr hreg) ht
    rw [hcolf] at hdo
    simp only at hdo
    rw [hrowf, ← hr] at hdo
    simp only at hdo
    have hcell : (st.sheet.setValue r 1 name).getValue r c = [] := by
      rw [getValue_setValue_ne _ _ _ _ _ _ (by omega)]; exact hempty
    rw [recordScan_empty _ _ _ _ hcell] at hdo
    rw [hdo] at hacc ⊢
    cases hdeb : debounce P st.props (e.serial ++ '_' :: formatDate t) t with
    | some last => rw [hdeb] at hacc; simp [Outcome.accepted] at hacc
    | none =>
      have hloc : Located (st.sheet.setValue r 1 name) name (formatHeader P t) r c := by
        refine ⟨hr2, hc, getValue_setValue_self _ _ _ _ (by omega) (by omega), ?_, ?_, ?_⟩
        · rw [getValue_setValue_ne _ _ _ _ _ _ (by omega)]; exact hcv
        · intro i hi1 hi2
          rw [getValue_setValue_ne _ _ _ _ _ _ (by omega)]; exact habs i hi1
        · intro j hj1 hj2
          rw [getValue_setValue_ne _ _ _ _ _ _ (by omega)]; exact hcf j hj1 hj2
      refine ⟨?_, ?_, ?_⟩
      · rfl
      · exact Located.setValue _ _ _ _ _ _ hloc
      · exact getValue_setValue_self _ _ _ _ (by omega) (by omega)

/-- An accepted scan into a cell that holds an arrival: a departure; the arrival stays
and the departure is the time of the scan. -/
theorem doPost_next_scan (P : Platform) (st : State) (e : Event) (name a d : Str) (t : ℤ)
    (r c : Nat)
    (hreg : employeeOf e.serial = some name) (ht : newDate P e.time = some t)
    (hloc : Located st.sheet name (formatHeader P t) r c)
    (hcell : st.sheet.getValue r c = cellText a d) (ha : isHHMM a = true)
    (hacc : (doPost P st e).1.accepted = true) :
    (doPost P st e).1 = Outcome.success name evDeparture (formatTime t) (formatDate t) ∧
    Located (doPost P st e).2.sheet name (formatHeader P t) r c ∧
    (doPost P st e).2.sheet.getValue r c = cellText a (formatTime t) := by
  have step := doPost_located P st e name t r c hreg ht hloc hacc
  rw [recordScan_cellText _ _ _ _ a d hcell ha] at step
  rw [step]
  exact ⟨rfl, Located.setValue _ _ _ _ _ _ hloc,
    getValue_setValue_self _ _ _ _ (by have := hloc.1; omega) (by have := hloc.2.1; omega)⟩

/-- C1, as the code has it. On a sheet that has the column of the date, with the
attendance cell of the employee and the date empty, three successive accepted
scans of a registered key on that date are an arrival, a departure and a
departure again: the second and every later scan rewrites the departure. After
the third the cell holds the time of the first scan as arrival and the time of
the third as departure. -/
theorem doPost_three_scans (P : Platform) (st : State) (e1 e2 e3 : Event) (name : Str)
    (t1 t2 t3 : ℤ) (r c : Nat)
    (hreg : employeeOf e1.serial = some name)
    (hs2 : e2.serial = e1.serial) (hs3 : e3.serial = e1.serial)
    (ht1 : newDate P e1.time = some t1) (ht2 : newDate P e2.time = some t2)
    (ht3 : newDate P e3.time = some t3)
    (hd2 : dayNumber GMT3 t2 = dayNumber GMT3 t1) (hd3 : dayNumber GMT3 t3 = dayNumber GMT3 t1)
    (hcol : DateColumnAt st.sheet (formatHeader P t1) c)
    (hrow : EmployeeRowAt st.sheet name r)
    (hempty : st.sheet.getValue r c = [])
    (ha1 : (doPost P st e1).1.accepted = true)
    (ha2 : (doPost P (doPost P st e1).2 e2).1.accepted = true)
    (ha3 : (doPost P (doPost P (doPost P st e1).2 e2).2 e3).1.accepted = true) :
    (doPost P st e1).1 = Outcome.success name evArrival (formatTime t1) (formatDate t1) ∧
    (doPost P (doPost P st e1).2 e2).1 =
      Outcome.success name evDeparture (formatTime t2) (formatDate t2) ∧
    (doPost P (doPost P (doPost P st e1).2 e2).2 e3).1 =
      Outcome.success name evDeparture (formatTime t3) (formatDate t3) ∧
    (doPost P (doPost P (doPost P st e1).2 e2).2 e3).2.sheet.getValue r c =
      cellText (formatTime t1) (formatTime t3) := by
  obtain ⟨o1, l1, v1⟩ := doPost_first_scan P st e1 name t1 r c hreg ht1 hcol hrow hempty ha1
  rw [← formatHeader_congr P t1 t2 hd2] at l1
  obtain ⟨o2, l2, v2⟩ := doPost_next_scan P (doPost P st e1).2 e2 name (formatTime t1) ['-'] t2
    r c (by rw [hs2]; exact hreg) ht2 l1 v1 (isHHMM_formatTime t1) ha2
  rw [formatHeader_congr P t1 t2 hd2, ← formatHeader_congr P t1 t3 hd3] at l2
  obtain ⟨o3, _, v3⟩ := doPost_next_scan P (doPost P (doPost P st e1).2 e2).2 e3 name
    (formatTime t1) (formatTime t2) t3 r c (by rw [hs3]; exact hreg) ht3 l2 v2
    (isHHMM_formatTime t1) ha3
  exact ⟨o1, o2, o3, v3⟩

theorem sampleSheet25_column :
    DateColumnAt sampleSheet25 "Ср 2025-06-25".toList 3 := by
  refine ⟨by decide, by decide, ?_⟩
  intro j h1 h2
  have hj : j = 2 := by omega
  subst hj
  decide

theorem sampleSheet25_row : EmployeeRowAt sampleSheet25 "Иванов".toList 2 := by
  left
  refine ⟨by decide, by decide, ?_⟩
  intro i h1 h2; omega

theorem doPost_three_scans_witness :
    (doPost moscow ⟨sampleSheet25, noProps⟩ (scan "2025-06-25 08:00")).1 =
      Outcome.success "Иванов".toList evArrival "08:00".toList "2025-06-25".toList ∧
    (doPost moscow (doPost moscow ⟨sampleSheet25, noProps⟩ (scan "2025-06-25 08:00")).2
        (scan "2025-06-25 12:00")).1 =
      Outcome.success "Иванов".toList evDeparture "12:00".toList "2025-06-25".toList ∧
    (doPost moscow (doPost moscow (doPost moscow ⟨sampleSheet25, noProps⟩
        (scan "2025-06-25 08:00")).2 (scan "2025-06-25 12:00")).2 (scan "2025-06-25 17:00")).1 =
      Outcome.success "Иванов".toList evDeparture "17:00".toList "2025-06-25".toList ∧
    (doPost moscow (doPost moscow (doPost moscow ⟨sampleSheet25, noProps⟩
        (scan "2025-06-25 08:00")).2 (scan "2025-06-25 12:00")).2
        (scan "2025-06-25 17:00")).2.sheet.getValue 2 3 =
      cellText "08:00".toList "17:00".toList :=
  doPost_three_scans moscow ⟨sampleSheet25, noProps⟩ (scan "2025-06-25 08:00")
    (scan "2025-06-25 12:00") (scan "2025-06-25 17:00") "Иванов".toList
    1750827600000 1750842000000 1750860000000 2 3
    (by decide) (by decide) (by decide) (by decide) (by decide) (by decide) (by decide)
    (by decide) sampleSheet25_column sampleSheet25_row (by decide) (by decide!) (by decide!)
    (by decide!)

/-- C1 as stated fails: with the cell of Иванов and 2025-06-25 empty, the scans at
08:00, 12:00 and 17:00 are all accepted, but the third is a departure, not an
arrival, and the cell then reads `Приход: 08:00, Уход: 17:00`, not
`Приход: 17:00, Уход: -`. -/
theorem doPost_no_toggle :
    sampleSheet25.getValue 2 3 = [] ∧
    (doPost moscow ⟨sampleSheet25, noProps⟩ (scan "2025-06-25 08:00")).1.accepted = true ∧
    (doPost moscow (doPost moscow ⟨sampleSheet25, noProps⟩ (scan "2025-06-25 08:00")).2
        (scan "2025-06-25 12:00")).1.accepted = true ∧
    (doPost moscow (doPost moscow (doPost moscow ⟨sampleSheet25, noProps⟩
        (scan "2025-06-25 08:00")).2 (scan "2025-06-25 12:00")).2 (scan "2025-06-25 17:00")).1 =
      Outcome.success "Иванов".toList evDeparture "17:00".toList "2025-06-25".toList ∧
    evDeparture ≠ evArrival ∧
    (doPost moscow (doPost moscow (doPost moscow ⟨sampleSheet25, noProps⟩
        (scan "2025-06-25 08:00")).2 (scan "2025-06-25 12:00")).2
        (scan "2025-06-25 17:00")).2.sheet.getValue 2 3 =
      "Приход: 08:00, Уход: 17:00".toList ∧
    "Приход: 08:00, Уход: 17:00".toList ≠ cellText "17:00".toList ['-'] := by
  decide!

/-- The first scan of a date that has no column yet: the header goes to the column after
the last one (line 36), the record to the column after that (line 38 adds 2 to
`getLastColumn()`), so the cell under the new header stays empty. -/
theorem doPost_new_column_offset :
    sampleSheet.getLastColumn = 2 ∧
    (doPost moscow ⟨sampleSheet, noProps⟩ (scan "2025-06-25 08:00")).2.sheet.getValue 1 3 =
      "Ср 2025-06-25".toList ∧
    (doPost moscow ⟨sampleSheet, noProps⟩ (scan "2025-06-25 08:00")).2.sheet.getValue 2 3 = [] ∧
    (doPost moscow ⟨sampleSheet, noProps⟩ (scan "2025-06-25 08:00")).2.sheet.getValue 2 4 =
      "Приход: 08:00, Уход: -".toList := by
  decide!

end SKUD

namespace SKUD

theorem doPost_success_inv (P : Platform) (st : State) (e : Event) (name ev t d : Str)
    (h : (doPost P st e).1 = Outcome.success name ev t d) :
    ∃ dateTime, employeeOf e.serial = some name ∧ newDate P e.time = some dateTime ∧
      (doPost P st e).2.props =
        setProperty st.props (e.serial ++ '_' :: formatDate dateTime) e.time := by
  rcases doPost_cases P e with h1 | ⟨m, h1, h2⟩ | ⟨t0, h1, h2⟩ | ⟨n, t0, h1, h2⟩
  · rw [doPost_unknown P st e h1] at h; simp at h
  · rw [doPost_invalid P st e m h1 h2] at h; simp at h
  · rw [doPost_inherited P st e t0 h1 h2] at h; simp at h
  · rw [doPost_name P st e n t0 h1 h2] at h ⊢
    cases hdeb : debounce P st.props (e.serial ++ '_' :: formatDate t0) t0 with
    | some last => rw [hdeb] at h; simp at h
    | none =>
      rw [hdeb] at h
      simp only [Outcome.success.injEq] at h
      refine ⟨t0, ?_, h2, rfl⟩
      rw [← h.1]; exact (lookup_name _ _).mp h1

theorem doPost_ignored_inv (P : Platform) (st : State) (e : Event) (name last : Str)
    (h : (doPost P st e).1 = Outcome.ignored name last) :
    ∃ dateTime, employeeOf e.serial = some name ∧ newDate P e.time = some dateTime ∧
      (doPost P st e).2 =
        { sheet := (employeeRow (dateColumn st.sheet (formatHeader P dateTime)).2 name).2
          props := st.props } := by
  rcases doPost_cases P e with h1 | ⟨m, h1, h2⟩ | ⟨t0, h1, h2⟩ | ⟨n, t0, h1, h2⟩
  · rw [doPost_unknown P st e h1] at h; simp at h
  · rw [doPost_invalid P st e m h1 h2] at h; simp at h
  · rw [doPost_inherited P st e t0 h1 h2] at h; simp at h
  · rw [doPost_name P st e n t0 h1 h2] at h ⊢
    cases hdeb : debounce P st.props (e.serial ++ '_' :: formatDate t0) t0 with
    | none => rw [hdeb] at h; simp at h
    | some l =>
      rw [hdeb] at h
      simp only [Outcome.ignored.injEq] at h
      refine ⟨t0, ?_, h2, ?_⟩
      · rw [← h.1]; exact (lookup_name _ _).mp h1
      · rw [← h.1]

/-- C2. For two scans of the same key on the same calendar date (GMT+3), the first
accepted and the second less than one minute after the first: the second is
answered `ignored`, and every attendance cell (rows and columns from the second
on) is after the second call what it was after the first. -/
theorem doPost_debounce (P : Platform) (st : State) (e1 e2 : Event) (name ev t d : Str)
    (t1 t2 : ℤ)
    (hs : e2.serial = e1.serial)
    (h1 : (doPost P st e1).1 = Outcome.success name ev t d)
    (ht1 : newDate P e1.time = some t1) (ht2 : newDate P e2.time = some t2)
    (hday : dayNumber GMT3 t2 = dayNumber GMT3 t1)
    (hlt : t2 - t1 < 60000) :
    (doPost P (doPost P st e1).2 e2).1 = Outcome.ignored name (formatTimeSec t1) ∧
    ∀ r c, 2 ≤ r → 2 ≤ c →
      (doPost P (doPost P st e1).2 e2).2.sheet.getValue r c =
        (doPost P st e1).2.sheet.getValue r c := by
  obtain ⟨t0, hreg, ht0, hprops⟩ := doPost_success_inv P st e1 name ev t d h1
  have e0 : t0 = t1 := by rw [ht1] at ht0; exact (Option.some.inj ht0).symm
  subst e0
  have hlook : lookup e2.serial = some (Member.name name) := by
    rw [hs]; exact (lookup_name _ _).mpr hreg
  have hdo := doPost_name P (doPost P st e1).2 e2 name t2 hlook ht2
  have hkey : e2.serial ++ '_' :: formatDate t2 = e1.serial ++ '_' :: formatDate t0 := by
    rw [hs, formatDate_congr t0 t2 hday]
  have hdeb : debounce P (doPost P st e1).2.props (e2.serial ++ '_' :: formatDate t2) t2 =
      some t0 := by
    apply debounce_of_lt P _ _ e1.time t0 t2 _ ht1 hlt
    rw [hprops, hkey]
    simp [setProperty]
  rw [hdeb] at hdo
  simp only at hdo
  rw [hdo]
  refine ⟨rfl, ?_⟩
  intro r c hr hc
  simp only
  rw [employeeRow_frame _ _ _ _ hc, dateColumn_frame _ _ _ _ hr]

theorem doPost_debounce_witness :
    (doPost moscow (doPost moscow ⟨sampleSheet25, noProps⟩ (scan "2025-06-25 08:00")).2
        (scan "2025-06-25 08:00:30")).1 = Outcome.ignored "Иванов".toList (formatTimeSec 1750827600000) ∧
    ∀ r c, 2 ≤ r → 2 ≤ c →
      (doPost moscow (doPost moscow ⟨sampleSheet25, noProps⟩ (scan "2025-06-25 08:00")).2
        (scan "2025-06-25 08:00:30")).2.sheet.getValue r c =
        (doPost moscow ⟨sampleSheet25, noProps⟩ (scan "2025-06-25 08:00")).2.sheet.getValue r c :=
  doPost_debounce moscow ⟨sampleSheet25, noProps⟩ (scan "2025-06-25 08:00")
    (scan "2025-06-25 08:00:30") "Иванов".toList evArrival "08:00".toList "2025-06-25".toList
    1750827600000 1750827630000 (by decide) (by decide!) (by decide) (by decide) (by decide)
    (by decide)

/-- C3 fails at the key `toString`: it is not a key of `EMPLOYEES`, yet `doPost` does not
answer `unknown`; the test `serial in EMPLOYEES` holds for it, the call goes on,
writes the header of the date into the sheet and ends without an answer. -/
theorem doPost_inherited_key :
    employeeOf "toString".toList = none ∧
    (doPost moscow ⟨sampleSheet, noProps⟩
        { serial := "toString".toList, time := "2025-06-25 08:00".toList }).1 =
      Outcome.exception ∧
    sampleSheet.getValue 1 3 = [] ∧
    (doPost moscow ⟨sampleSheet, noProps⟩
        { serial := "toString".toList, time := "2025-06-25 08:00".toList }).2.sheet.getValue 1 3 =
      "Ср 2025-06-25".toList := by
  decide

/-- C4, as the code has it. When `doPost` answers `ignored`, the debounce properties and
every attendance cell (rows and columns from the second on) are what they were
before the call; and when the sheet already has the header of the date in some
column from the second on and the name of the employee in some row from the
second on, the whole state is what it was before the call. -/
theorem doPost_ignored_frame (P : Platform) (st : State) (e : Event) (name last : Str)
    (h : (doPost P st e).1 = Outcome.ignored name last) :
    (doPost P st e).2.props = st.props ∧
    (∀ r c, 2 ≤ r → 2 ≤ c → (doPost P st e).2.sheet.getValue r c = st.sheet.getValue r c) ∧
    (∀ dateTime, newDate P e.time = some dateTime →
      (∃ c, 2 ≤ c ∧ st.sheet.getValue 1 c = formatHeader P dateTime) →
      (∃ r, 2 ≤ r ∧ st.sheet.getValue r 1 = name) →
      (doPost P st e).2 = st) := by
  obtain ⟨t0, hreg, ht0, hst⟩ := doPost_ignored_inv P st e name last h
  rw [hst]
  refine ⟨rfl, ?_, ?_⟩
  · intro r c hr hc
    simp only
    rw [employeeRow_frame _ _ _ _ hc, dateColumn_frame _ _ _ _ hr]
  · intro dateTime hdt hcol hrow
    have e0 : t0 = dateTime := by rw [ht0] at hdt; exact Option.some.inj hdt
    subst e0
    rw [dateColumn_of_exists _ _ (formatHeader_ne_nil P t0) hcol,
      employeeRow_of_exists _ _ (employeeOf_ne_nil _ _ hreg) hrow]

theorem doPost_ignored_frame_witness :
    (doPost moscow ⟨sampleSheet25, sampleProps⟩ (scan "2025-06-25 08:00:30")).2.props =
      sampleProps ∧
    (∀ r c, 2 ≤ r → 2 ≤ c →
      (doPost moscow ⟨sampleSheet25, sampleProps⟩
        (scan "2025-06-25 08:00:30")).2.sheet.getValue r c = sampleSheet25.getValue r c) ∧
    (∀ dateTime, newDate moscow (scan "2025-06-25 08:00:30").time = some dateTime →
      (∃ c, 2 ≤ c ∧ sampleSheet25.getValue 1 c = formatHeader moscow dateTime) →
      (∃ r, 2 ≤ r ∧ sampleSheet25.getValue r 1 = "Иванов".toList) →
      (doPost moscow ⟨sampleSheet25, sampleProps⟩ (scan "2025-06-25 08:00:30")).2 =
        ⟨sampleSheet25, sampleProps⟩) :=
  doPost_ignored_frame moscow ⟨sampleSheet25, sampleProps⟩ (scan "2025-06-25 08:00:30")
    "Иванов".toList "08:00:00".toList (by decide!)

/-- C4 as stated fails: in the state whose sheet has no column for 2025-06-25 while the
property store holds the debounce property of that date, the scan at 08:00:30 is
answered `ignored`, and the call has written the header `Ср 2025-06-25` into the
empty cell of row 1, column 3. -/
theorem doPost_ignored_writes_header :
    (doPost moscow ⟨sampleSheet, sampleProps⟩ (scan "2025-06-25 08:00:30")).1 =
      Outcome.ignored "Иванов".toList "08:00:00".toList ∧
    sampleSheet.getValue 1 3 = [] ∧
    (doPost moscow ⟨sampleSheet, sampleProps⟩ (scan "2025-06-25 08:00:30")).2.sheet.getValue 1 3 =
      "Ср 2025-06-25".toList := by
  decide!

/-- C5, as the code has it. For a scan whose time cannot be read, `doPost` leaves the
state unchanged and its outcome does not depend on the sheet or on the property
store; the key is looked up in the registry first: a key that fails the test
`serial in EMPLOYEES` is answered `unknown`, and for any other key the call
returns no answer (the platform throws when the invalid date is formatted). -/
theorem doPost_unreadable_time (P : Platform) (st : State) (e : Event)
    (h : newDate P e.time = none) :
    (doPost P st e).2 = st ∧
    (∀ st1 : State, (doPost P st1 e).1 = (doPost P st e).1) ∧
    (lookup e.serial = none → (doPost P st e).1 = Outcome.unknown e.serial) ∧
    (lookup e.serial ≠ none → (doPost P st e).1 = Outcome.exception) := by
  cases hl : lookup e.serial with
  | none =>
    refine ⟨?_, ?_, ?_, ?_⟩
    · rw [doPost_unknown P st e hl]
    · intro st1; rw [doPost_unknown P st e hl, doPost_unknown P st1 e hl]
    · intro _; rw [doPost_unknown P st e hl]
    · intro hne; exact absurd rfl hne
  | some m =>
    refine ⟨?_, ?_, ?_, ?_⟩
    · rw [doPost_invalid P st e m hl h]
    · intro st1; rw [doPost_invalid P st e m hl h, doPost_invalid P st1 e m hl h]
    · intro hn; simp at hn
    · intro _; rw [doPost_invalid P st e m hl h]

theorem doPost_unreadable_time_witness :
    (doPost moscow ⟨sampleSheet, noProps⟩ (scan "yesterday")).2 = ⟨sampleSheet, noProps⟩ ∧
    (∀ st1 : State, (doPost moscow st1 (scan "yesterday")).1 =
      (doPost moscow ⟨sampleSheet, noProps⟩ (scan "yesterday")).1) ∧
    (lookup (scan "yesterday").serial = none →
      (doPost moscow ⟨sampleSheet, noProps⟩ (scan "yesterday")).1 =
        Outcome.unknown (scan "yesterday").serial) ∧
    (lookup (scan "yesterday").serial ≠ none →
      (doPost moscow ⟨sampleSheet, noProps⟩ (scan "yesterday")).1 = Outcome.exception) :=
  doPost_unreadable_time moscow ⟨sampleSheet, noProps⟩ (scan "yesterday") (by decide)

/-- C5 as stated fails: the scan of the unregistered key `FFFF` with the unreadable time
`yesterday` is answered `unknown`, the answer of the registry lookup, so the
lookup came before any check of the time. -/
theorem doPost_unknown_before_time :
    newDate moscow "yesterday".toList = none ∧
    (doPost moscow ⟨sampleSheet, noProps⟩
        { serial := "FFFF".toList, time := "yesterday".toList }).1 =
      Outcome.unknown "FFFF".toList := by
  decide

end SKUD

namespace SKUD

/-! ## `closeUnfinishedDays` -/

theorem closeRows_getValue (colIndex : Nat) : ∀ (data : List Str) (i0 : Nat) (sheet : Sheet)
    (i j : Nat),
    (closeRows colIndex data i0 sheet).getValue i j =
      if j = colIndex + 1 ∧ i0 + 2 ≤ i ∧ i < i0 + 2 + data.length ∧
          isUnfinished ((data.get? (i - (i0 + 2))).getD []) = true
      then cellText (orUndefined (arrivalField ((data.get? (i - (i0 + 2))).getD [])))
        DEFAULT_END_TIME
      else sheet.getValue i j := by
  intro data
  induction data with
  | nil =>
    intro i0 sheet i j
    simp only [closeRows, List.length_nil, Nat.add_zero]
    rw [if_neg]
    omega
  | cons x xs ih =>
    intro i0 sheet i j
    unfold closeRows
    rw [ih]
    have hhead : (if isUnfinished x = true
          then sheet.setValue (i0 + 2) (colIndex + 1)
            (cellText (orUndefined (arrivalField x)) DEFAULT_END_TIME)
          else sheet).getValue i j =
        if (i = i0 + 2 ∧ j = colIndex + 1) ∧ isUnfinished x = true
        then cellText (orUndefined (arrivalField x)) DEFAULT_END_TIME
        else sheet.getValue i j := by
      by_cases hx : isUnfinished x = true
      · simp only [hx, if_true, and_true]
        rw [getValue_setValue]
        simp
      · simp [hx]
    rw [hhead]
    by_cases hj : j = colIndex + 1
    · by_cases hi : i = i0 + 2
      · subst hi
        have h1 : ¬ (i0 + 1 + 2 ≤ i0 + 2) := by omega
        have h2 : i0 + 2 < i0 + 2 + (xs.length + 1) := by omega
        simp only [hj, true_and, h1, false_and, if_false, le_refl, Nat.sub_self,
          List.get?_cons_zero, Option.getD_some, List.length_cons, h2, and_self]
      · by_cases hlo : i0 + 1 + 2 ≤ i
        · have e1 : i - (i0 + 2) = (i - (i0 + 1 + 2)) + 1 := by omega
          have h3 : (i < i0 + 1 + 2 + xs.length) ↔ (i < i0 + 2 + (xs.length + 1)) := by omega
          have h4 : i0 + 2 ≤ i := by omega
          simp only [hj, true_and, hlo, e1, List.get?_cons_succ, List.length_cons, h3, h4, hi,
            false_and, if_false, and_true]
        · have h4 : ¬ (i0 + 2 ≤ i) := by omega
          simp only [hj, true_and, hlo, false_and, if_false, h4, hi, and_true]
    · simp only [hj, false_and, and_false, if_false]

theorem isUnfinished_nil : isUnfinished [] = false := by decide

theorem todayColumn_iff (P : Platform) (today : ℤ) (sheet : Sheet) (c : Nat) :
    TodayColumn P today sheet c ↔ 1 ≤ c ∧
      indexOf (formatHeader P today)
        ((List.range sheet.getLastColumn).map (fun k => sheet.getValue 1 (k + 1))) =
        some (c - 1) := by
  rw [indexOf_range_some]
  constructor
  · rintro ⟨h1, h2, h3⟩
    have hle : c ≤ sheet.getLastColumn :=
      le_getLastColumn sheet 1 c (by rw [h2]; exact formatHeader_ne_nil P today)
    refine ⟨h1, by omega, ?_, ?_⟩
    · simp only [show c - 1 + 1 = c by omega]; exact h2
    · intro j hj; exact h3 (j + 1) (by omega) (by omega)
  · rintro ⟨h1, h2, h3, h4⟩
    simp only [show c - 1 + 1 = c by omega] at h3
    refine ⟨h1, h3, ?_⟩
    intro j hj1 hj2
    have := h4 (j - 1) (by omega)
    simp only [show j - 1 + 1 = j by omega] at this
    exact this

/-- Every cell after `closeUnfinishedDays`: the cells of the column of the current date,
from the second row on, that pass the test of lines 291-292 are rewritten, and
every other cell is what it was. -/
theorem closeUnfinishedDays_getValue (P : Platform) (today : ℤ) (sheet : Sheet) (r c : Nat) :
    (TodayColumn P today sheet c ∧ 2 ≤ r ∧ isUnfinished (sheet.getValue r c) = true →
      (closeUnfinishedDays P today sheet).getValue r c =
        cellText (orUndefined (arrivalField (sheet.getValue r c))) DEFAULT_END_TIME) ∧
    (¬ (TodayColumn P today sheet c ∧ 2 ≤ r ∧ isUnfinished (sheet.getValue r c) = true) →
      (closeUnfinishedDays P today sheet).getValue r c = sheet.getValue r c) := by
  unfold closeUnfinishedDays
  simp only
  cases hidx : indexOf (formatHeader P today)
      ((List.range sheet.getLastColumn).map (fun k => sheet.getValue 1 (k + 1))) with
  | none =>
    simp only
    refine ⟨?_, fun _ => trivial⟩
    rintro ⟨h1, _, _⟩
    rw [todayColumn_iff, hidx] at h1
    simp at h1
  | some colIndex =>
    simp only
    rw [closeRows_getValue]
    have hdata : ∀ i, 2 ≤ i →
        ((((List.range (sheet.getLastRow - 1)).map
          (fun i => sheet.getValue (i + 2) (colIndex + 1))).get? (i - (0 + 2))).getD []) =
        sheet.getValue i (colIndex + 1) := by
      intro i hi
      rw [get?_map_range]
      by_cases hlt : i - (0 + 2) < sheet.getLastRow - 1
      · simp only [hlt, if_true, Option.getD_some]
        congr 1; omega
      · simp only [hlt, if_false, Option.getD_none]
        by_contra hne
        have := le_getLastRow sheet i (colIndex + 1) (fun h => hne h.symm)
        omega
    have htc : TodayColumn P today sheet c ↔ c = colIndex + 1 := by
      rw [todayColumn_iff, hidx]
      constructor
      · rintro ⟨h1, h2⟩
        have := Option.some.inj h2
        omega
      · intro h; subst h; exact ⟨by omega, by simp⟩
    constructor
    · rintro ⟨h1, hr, hu⟩
      have hc : c = colIndex + 1 := htc.mp h1
      subst hc
      have hr0 : 0 + 2 ≤ r := by omega
      rw [hdata r hr]
      have hlt : r < 0 + 2 + ((List.range (sheet.getLastRow - 1)).map
          (fun i => sheet.getValue (i + 2) (colIndex + 1))).length := by
        have hne : sheet.getValue r (colIndex + 1) ≠ [] := by
          intro h0; rw [h0, isUnfinished_nil] at hu; simp at hu
        have := le_getLastRow sheet r (colIndex + 1) hne
        simp only [List.length_map, List.length_range]
        omega
      simp only [hr0, hu, hlt, and_self, if_true]
    · intro hn
      rw [if_neg]
      rintro ⟨hc, hr0, _, hu⟩
      have hr : 2 ≤ r := by omega
      subst hc
      rw [hdata r hr] at hu
      exact hn ⟨htc.mpr rfl, hr, hu⟩

theorem includes_mem (sub : Str) : ∀ s : Str, includes s sub = true → ∀ x, x ∈ sub → x ∈ s := by
  intro s
  induction s with
  | nil =>
    intro h x hx
    simp only [includes, List.isEmpty_eq_true] at h
    subst h
    exact hx
  | cons c cs ih =>
    intro h x hx
    simp only [includes, Bool.or_eq_true] at h
    rcases h with h | h
    · have hp : sub <+: (c :: cs) := List.isPrefixOf_iff_prefix.mp h
      exact hp.subset hx
    · exact List.mem_cons_of_mem _ (ih h x hx)

theorem isUnfinished_closed (a d : Str) (ha : isHHMM a = true) (hd : isHHMM d = true) :
    isUnfinished (cellText a d) = false := by
  obtain ⟨h1, m1, b1, b2, rfl, _⟩ := isHHMM_cases a ha
  obtain ⟨h2, m2, b3, b4, rfl, _⟩ := isHHMM_cases d hd
  have f1 := (hhmm_fields h1 b1 ⟨m1, b2⟩).2.1
  have f2 := (hhmm_fields h2 b3 ⟨m2, b4⟩).2.1
  simp only at f1 f2
  by_contra hne
  have hu : isUnfinished (cellText (hhmm h1 m1) (hhmm h2 m2)) = true := by
    simpa using hne
  simp only [isUnfinished, Bool.and_eq_true] at hu
  have hmem := includes_mem strOpen _ hu.2 '-' (by decide)
  simp only [cellText, List.mem_append, List.mem_cons] at hmem
  rcases hmem with (hmem | hmem) | hmem
  · rcases hmem with hmem | hmem
    · revert hmem; decide
    · exact f1 hmem
  · revert hmem; decide
  · exact f2 hmem

theorem isUnfinished_open (a : Str) : isUnfinished (cellText a ['-']) = true := by
  have h1 : includes (cellText a ['-']) strOpen = true := by
    have key : ∀ pre : Str, includes (pre ++ strOpen) strOpen = true := by
      intro pre
      induction pre with
      | nil => decide
      | cons c cs ih =>
        simp only [List.cons_append, includes]
        rw [Bool.or_eq_true]
        exact Or.inr ih
    have e : cellText a ['-'] = (['П', 'р', 'и', 'х', 'о', 'д', ':', ' '] ++ a ++ [',', ' ']) ++
        strOpen := by
      simp [cellText, strOpen]
    rw [e]; exact key _
  simp only [isUnfinished, h1, includes_cellText, Bool.and_true, decide_eq_true_eq]
  exact cellText_ne_nil _ _

end SKUD

namespace SKUD

/-- C8. After `closeUnfinishedDays`, for every sheet: a cell of the column of the current
date (from the second row on) that held an arrival with no departure,
`Приход: a, Уход: -`, holds the same arrival with departure 17:00; and a cell
of another column, a header (row 1), an empty cell, a closed record, and any
cell that does not pass the test for an unfinished day has its old value. -/
theorem closeUnfinishedDays_closes (P : Platform) (today : ℤ) (sheet : Sheet) (r c : Nat) :
    (∀ a, TodayColumn P today sheet c → 2 ≤ r → isHHMM a = true →
      sheet.getValue r c = cellText a ['-'] →
      (closeUnfinishedDays P today sheet).getValue r c = cellText a DEFAULT_END_TIME) ∧
    (¬ TodayColumn P today sheet c →
      (closeUnfinishedDays P today sheet).getValue r c = sheet.getValue r c) ∧
    (r < 2 → (closeUnfinishedDays P today sheet).getValue r c = sheet.getValue r c) ∧
    (sheet.getValue r c = [] →
      (closeUnfinishedDays P today sheet).getValue r c = sheet.getValue r c) ∧
    (∀ a d, isHHMM a = true → isHHMM d = true → sheet.getValue r c = cellText a d →
      (closeUnfinishedDays P today sheet).getValue r c = sheet.getValue r c) ∧
    (isUnfinished (sheet.getValue r c) = false →
      (closeUnfinishedDays P today sheet).getValue r c = sheet.getValue r c) ∧
    DEFAULT_END_TIME = "17:00".toList := by
  obtain ⟨hyes, hno⟩ := closeUnfinishedDays_getValue P today sheet r c
  refine ⟨?_, ?_, ?_, ?_, ?_, ?_, rfl⟩
  · intro a htc hr ha hv
    rw [hyes ⟨htc, hr, by rw [hv]; exact isUnfinished_open a⟩, hv,
      arrivalField_cellText a _ ha]
    rfl
  · intro h; exact hno (fun hh => h hh.1)
  · intro h; exact hno (fun hh => by omega)
  · intro h
    exact hno (fun hh => by
      have := hh.2.2
      rw [h, isUnfinished_nil] at this
      simp at this)
  · intro a d ha hd hv
    exact hno (fun hh => by
      have := hh.2.2
      rw [hv, isUnfinished_closed a d ha hd] at this
      simp at this)
  · intro h
    exact hno (fun hh => by
      have := hh.2.2
      rw [h] at this
      simp at this)

theorem sampleSheetOpen_today : TodayColumn moscow 1750885140000 sampleSheetOpen 3 := by
  refine ⟨by decide, by decide, ?_⟩
  intro j h1 h2
  have hj : j = 1 ∨ j = 2 := by omega
  rcases hj with rfl | rfl <;> decide

theorem closeUnfinishedDays_closes_witness :
    (closeUnfinishedDays moscow 1750885140000 sampleSheetOpen).getValue 2 3 =
      cellText "08:00".toList DEFAULT_END_TIME :=
  (closeUnfinishedDays_closes moscow 1750885140000 sampleSheetOpen 2 3).1 "08:00".toList
    sampleSheetOpen_today (by decide) (by decide) (by decide)

/-! ## The ledger invariant -/

theorem wellFormed_cellText_open (t : Str) (ht : isHHMM t = true) :
    WellFormedCell (cellText t ['-']) :=
  Or.inr ⟨t, ['-'], ht, Or.inr rfl, rfl⟩

theorem wellFormed_cellText (a d : Str) (ha : isHHMM a = true) (hd : isHHMM d = true) :
    WellFormedCell (cellText a d) :=
  Or.inr ⟨a, d, ha, Or.inl hd, rfl⟩

theorem isUnfinished_name (serial name : Str) (h : employeeOf serial = some name) :
    isUnfinished name = false := by
  rcases employeeOf_cases serial name h with h1 | h1 <;> rw [h1] <;> decide

theorem recordScan_invariant (sheet : Sheet) (row col : Nat) (t : Str) (hcol : 2 ≤ col)
    (ht : isHHMM t = true)
    (h1 : ∀ r c, 2 ≤ r → 2 ≤ c → WellFormedCell (sheet.getValue r c))
    (h2 : ∀ r, 2 ≤ r → isUnfinished (sheet.getValue r 1) = false) :
    (∀ r c, 2 ≤ r → 2 ≤ c → WellFormedCell ((recordScan sheet row col t).1.getValue r c)) ∧
    (∀ r, 2 ≤ r → isUnfinished ((recordScan sheet row col t).1.getValue r 1) = false) := by
  unfold recordScan
  simp only
  split_ifs with hcond
  · simp only
    constructor
    · intro r c hr hc
      rw [getValue_setValue]
      split_ifs
      · exact wellFormed_cellText_open t ht
      · exact Or.inl rfl
      · exact h1 r c hr hc
    · intro r hr
      rw [getValue_setValue_ne _ _ _ _ _ _ (by omega)]
      exact h2 r hr
  · simp only
    constructor
    · intro r c hr hc
      rw [getValue_setValue]
      split_ifs with hrc hpos
      · obtain ⟨rfl, rfl⟩ := hrc
        push_neg at hcond
        rcases h1 r c hr hc with h0 | ⟨a, d, ha, _, hv⟩
        · exact absurd h0 hcond.1
        · rw [hv, arrivalField_cellText a d ha]
          exact wellFormed_cellText a t ha ht
      · exact Or.inl rfl
      · exact h1 r c hr hc
    · intro r hr
      rw [getValue_setValue_ne _ _ _ _ _ _ (by omega)]
      exact h2 r hr

theorem doPost_invariant (P : Platform) (st : State) (e : Event)
    (h1 : ∀ r c, 2 ≤ r → 2 ≤ c → WellFormedCell (st.sheet.getValue r c))
    (h2 : ∀ r, 2 ≤ r → isUnfinished (st.sheet.getValue r 1) = false) :
    (∀ r c, 2 ≤ r → 2 ≤ c → WellFormedCell ((doPost P st e).2.sheet.getValue r c)) ∧
    (∀ r, 2 ≤ r → isUnfinished ((doPost P st e).2.sheet.getValue r 1) = false) := by
  rcases doPost_cases P e with hl | ⟨m, hl, ht⟩ | ⟨t0, hl, ht⟩ | ⟨n, t0, hl, ht⟩
  · rw [doPost_unknown P st e hl]; exact ⟨h1, h2⟩
  · rw [doPost_invalid P st e m hl ht]; exact ⟨h1, h2⟩
  · rw [doPost_inherited P st e t0 hl ht]
    simp only
    constructor
    · intro r c hr hc; rw [dateColumn_frame _ _ _ _ hr]; exact h1 r c hr hc
    · intro r hr; rw [dateColumn_frame _ _ _ _ hr]; exact h2 r hr
  · have hreg := (lookup_name _ _).mp hl
    have g1 : ∀ r c, 2 ≤ r → 2 ≤ c → WellFormedCell
        ((employeeRow (dateColumn st.sheet (formatHeader P t0)).2 n).2.getValue r c) := by
      intro r c hr hc
      rw [employeeRow_frame _ _ _ _ hc, dateColumn_frame _ _ _ _ hr]; exact h1 r c hr hc
    have g2 : ∀ r, 2 ≤ r → isUnfinished
        ((employeeRow (dateColumn st.sheet (formatHeader P t0)).2 n).2.getValue r 1) = false := by
      intro r hr
      rcases employeeRow_names (dateColumn st.sheet (formatHeader P t0)).2 n r with h | h
      · rw [h, dateColumn_frame _ _ _ _ hr]; exact h2 r hr
      · rw [h]; exact isUnfinished_name _ _ hreg
    rw [doPost_name P st e n t0 hl ht]
    cases debounce P st.props (e.serial ++ '_' :: formatDate t0) t0 with
    | some last => exact ⟨g1, g2⟩
    | none =>
      exact recordScan_invariant _ _ _ _ (dateColumn_fst_ge _ _) (isHHMM_formatTime t0) g1 g2

theorem closeUnfinishedDays_invariant (P : Platform) (today : ℤ) (sheet : Sheet)
    (h1 : ∀ r c, 2 ≤ r → 2 ≤ c → WellFormedCell (sheet.getValue r c))
    (h2 : ∀ r, 2 ≤ r → isUnfinished (sheet.getValue r 1) = false) :
    (∀ r c, 2 ≤ r → 2 ≤ c →
      WellFormedCell ((closeUnfinishedDays P today sheet).getValue r c)) ∧
    (∀ r, 2 ≤ r → isUnfinished ((closeUnfinishedDays P today sheet).getValue r 1) = false) := by
  constructor
  · intro r c hr hc
    obtain ⟨hyes, hno⟩ := closeUnfinishedDays_getValue P today sheet r c
    by_cases hcond : TodayColumn P today sheet c ∧ 2 ≤ r ∧
        isUnfinished (sheet.getValue r c) = true
    · rw [hyes hcond]
      rcases h1 r c hr hc with h0 | ⟨a, d, ha, _, hv⟩
      · have := hcond.2.2
        rw [h0, isUnfinished_nil] at this
        simp at this
      · rw [hv, arrivalField_cellText a d ha]
        exact wellFormed_cellText a DEFAULT_END_TIME ha (by decide)
    · rw [hno hcond]; exact h1 r c hr hc
  · intro r hr
    obtain ⟨_, hno⟩ := closeUnfinishedDays_getValue P today sheet r 1
    rw [hno (fun hh => by
      have := hh.2.2
      rw [h2 r hr] at this
      simp at this)]
    exact h2 r hr

/-- The invariant of the sheet: every attendance cell is well formed, and no cell of the
names column passes the test for an unfinished day. -/
theorem reachable_invariant (P : Platform) (st : State) (h : Reachable P st) :
    (∀ r c, 2 ≤ r → 2 ≤ c → WellFormedCell (st.sheet.getValue r c)) ∧
    (∀ r, 2 ≤ r → isUnfinished (st.sheet.getValue r 1) = false) := by
  induction h with
  | init props =>
    constructor
    · intro r c _ _; left; simp [Sheet.getValue, Sheet.empty]
    · intro r _; simp [Sheet.getValue, Sheet.empty, isUnfinished_nil]
  | post st e _ ih => exact doPost_invariant P st e ih.1 ih.2
  | close st today _ ih => exact closeUnfinishedDays_invariant P today st.sheet ih.1 ih.2

/-- C9. In every state reached from an empty sheet by calls of `doPost` and of
`closeUnfinishedDays`, every attendance cell (rows and columns from the second
on) is empty or reads `Приход: a, Уход: d` with `a` a time and `d` a time or
`-`: no record has a departure without an arrival. -/
theorem ledger_invariant (P : Platform) (st : State) (h : Reachable P st) (r c : Nat)
    (hr : 2 ≤ r) (hc : 2 ≤ c) :
    st.sheet.getValue r c = [] ∨
      ∃ a d, isHHMM a = true ∧ (isHHMM d = true ∨ d = ['-']) ∧
        st.sheet.getValue r c = cellText a d :=
  (reachable_invariant P st h).1 r c hr hc

theorem ledger_invariant_witness :
    (doPost moscow (doPost moscow ⟨Sheet.empty, noProps⟩ (scan "2025-06-25 08:00")).2
        (scan "2025-06-25 17:00")).2.sheet.getValue 2 2 = [] ∨
      ∃ a d, isHHMM a = true ∧ (isHHMM d = true ∨ d = ['-']) ∧
        (doPost moscow (doPost moscow ⟨Sheet.empty, noProps⟩ (scan "2025-06-25 08:00")).2
          (scan "2025-06-25 17:00")).2.sheet.getValue 2 2 = cellText a d :=
  ledger_invariant moscow _
    (Reachable.post _ (scan "2025-06-25 17:00")
      (Reachable.post _ (scan "2025-06-25 08:00") (Reachable.init noProps)))
    2 2 (by decide) (by decide)

end SKUD

namespace SKUD

/-! ## `generateMonthlyReport` -/

theorem includes_append (sub rest : Str) : ∀ pre : Str,
    includes (pre ++ (sub ++ rest)) sub = true := by
  intro pre
  induction pre with
  | nil =>
    cases hs : sub ++ rest with
    | nil =>
      have : sub = [] := (List.append_eq_nil.mp hs).1
      simp [includes, this]
    | cons c cs =>
      simp only [List.nil_append, hs, includes, Bool.or_eq_true]
      left
      rw [← hs]
      exact List.isPrefixOf_iff_prefix.mpr (List.prefix_append _ _)
  | cons c cs ih =>
    simp only [List.cons_append, includes]
    rw [Bool.or_eq_true]
    exact Or.inr ih

theorem includes_cellText_departure (a d : Str) :
    includes (cellText a d) strDeparture = true := by
  have e : cellText a d = (['П', 'р', 'и', 'х', 'о', 'д', ':', ' '] ++ a ++ [',', ' ']) ++
      (strDeparture ++ ([':', ' '] ++ d)) := by
    simp [cellText, strDeparture]
  rw [e]
  exact includes_append _ _ _

theorem workedTimes_nil : workedTimes [] = none := by decide

theorem hhmm_length (h m : Nat) : (hhmm h m).length = 5 := by
  simp [hhmm, pad2]

theorem cellText_take (a d : Str) (ha : a.length = 5) :
    ((cellText a d).drop 8).take 5 = a ∧ (cellText a d).drop 21 = d := by
  match a, ha with
  | [x1, x2, x3, x4, x5], _ => simp [cellText]

theorem workedTimes_closed (a d : Str) (ha : isHHMM a = true) (hd : isHHMM d = true) :
    workedTimes (cellText a d) = some (a, d) := by
  obtain ⟨h1, m1, _, _, e1, _⟩ := isHHMM_cases a ha
  have hl : a.length = 5 := by rw [e1]; exact hhmm_length h1 m1
  obtain ⟨t1, t2⟩ := cellText_take a d hl
  unfold workedTimes
  rw [t1, t2]
  simp [ha, hd]

theorem workedTimes_open (a : Str) (ha : isHHMM a = true) :
    workedTimes (cellText a ['-']) = none := by
  obtain ⟨h1, m1, _, _, e1, _⟩ := isHHMM_cases a ha
  have hl : a.length = 5 := by rw [e1]; exact hhmm_length h1 m1
  obtain ⟨t1, t2⟩ := cellText_take a ['-'] hl
  unfold workedTimes
  rw [t1, t2]
  have : isHHMM ['-'] = false := by decide
  simp [this]

theorem isWeekend_eq (P : Platform) (dateObj : ℤ) :
    WEEKEND_DAYS.contains (weekdayOf (dayNumber P.zone dateObj)) = isWeekend P dateObj := by
  unfold isWeekend WEEKEND_DAYS
  generalize weekdayOf (dayNumber P.zone dateObj) = w
  by_cases h0 : w = 0
  · subst h0; decide
  · by_cases h6 : w = 6
    · subst h6; decide
    · simp [h0, h6]

/-- The step of the loop over the date columns on a well-formed cell. -/
theorem columnStep_wellFormed (P : Platform) (year month : ℤ) (acc : Totals) (h v : Str)
    (hv : WellFormedCell v) :
    columnStep P year month acc h v =
      some (match columnDate P year month h, workedTimes v with
        | some dateObj, some ad =>
          { totalHours := numAdd acc.totalHours
              (AttendanceScript.calculateHours P.zone dateObj ad.1 ad.2)
            weekendHours :=
              if isWeekend P dateObj = true
              then numAdd acc.weekendHours
                (AttendanceScript.calculateHours P.zone dateObj ad.1 ad.2)
              else acc.weekendHours
            workDays := acc.workDays + 1 }
        | _, _ => acc) := by
  unfold columnStep
  cases hcd : columnDate P year month h with
  | none => rfl
  | some dateObj =>
    simp only
    rcases hv with h0 | ⟨a, d, ha, hd | hd, rfl⟩
    · subst h0
      simp [workedTimes_nil]
    · obtain ⟨h1, m1, b1, b2, e1, _⟩ := isHHMM_cases a ha
      obtain ⟨h2, m2, b3, b4, e2, _⟩ := isHHMM_cases d hd
      have fa := hhmm_fields h1 b1 ⟨m1, b2⟩
      have fd := hhmm_fields h2 b3 ⟨m2, b4⟩
      simp only at fa fd
      rw [← e1] at fa
      rw [← e2] at fd
      have hsplit := split_cellText a d fa.1 fd.1
      have hdne : d ≠ ['-'] := by
        intro hh; rw [hh] at hd; revert hd; decide
      simp only [cellText_ne_nil, includes_cellText, includes_cellText_departure,
        Bool.true_eq_false, or_self, if_false, arrivalField_cellText a d ha, hsplit,
        List.get?_cons_succ, List.get?_cons_zero, fd.2.2.2.2, Option.some.injEq, hdne,
        workedTimes_closed a d ha hd, isWeekend_eq]
    · subst hd
      obtain ⟨h1, m1, b1, b2, e1, _⟩ := isHHMM_cases a ha
      have fa := hhmm_fields h1 b1 ⟨m1, b2⟩
      simp only at fa
      rw [← e1] at fa
      have hsplit := split_cellText a ['-'] fa.1 (by decide)
      have hdep : (split ([' ', 'У', 'х', 'о', 'д', ':', ' '] ++ ['-']) [':', ' ']).get? 1 =
          some ['-'] := by decide
      simp only [cellText_ne_nil, includes_cellText, includes_cellText_departure,
        Bool.true_eq_false, or_self, if_false, hsplit,
        List.get?_cons_succ, List.get?_cons_zero, hdep, if_true,
        workedTimes_open a ha]

theorem scanColumns_wellFormed (P : Platform) (year month : ℤ) :
    ∀ (cols : List (Str × Str)) (acc : Totals),
    (∀ hv, hv ∈ cols → WellFormedCell hv.2) →
    scanColumns P year month acc cols =
      some { totalHours := sumHours P acc.totalHours (workedDays P year month cols)
             weekendHours := sumHours P acc.weekendHours
               ((workedDays P year month cols).filter (fun x => isWeekend P x.1))
             workDays := acc.workDays + (workedDays P year month cols).length } := by
  intro cols
  induction cols with
  | nil => intro acc _; simp [scanColumns, workedDays, sumHours]
  | cons hv rest ih =>
    intro acc hwf
    have hhead : WellFormedCell hv.2 := hwf hv (List.mem_cons_self _ _)
    have htail : ∀ x, x ∈ rest → WellFormedCell x.2 :=
      fun x hx => hwf x (List.mem_cons_of_mem _ hx)
    unfold scanColumns
    rw [columnStep_wellFormed P year month acc hv.1 hv.2 hhead]
    simp only
    rw [ih _ htail]
    cases hcd : columnDate P year month hv.1 with
    | none => simp [workedDays, hcd]
    | some dateObj =>
      cases hwt : workedTimes hv.2 with
      | none => simp [workedDays, hcd, hwt]
      | some ad =>
        by_cases hw : isWeekend P dateObj = true
        · simp [workedDays, hcd, hwt, sumHours, hw, Nat.add_assoc, Nat.add_comm 1]
        · simp [workedDays, hcd, hwt, sumHours, hw, Nat.add_assoc, Nat.add_comm 1]

end SKUD

namespace SKUD

theorem rowOfTotals_spec (P : Platform) (year month : ℤ) (sheet : Sheet) (i : Nat) :
    rowOfTotals (sheet.getValue (i + 2) 1)
      { totalHours := sumHours P (some 0) (workedDays P year month (columnsOf sheet i))
        weekendHours := sumHours P (some 0)
          ((workedDays P year month (columnsOf sheet i)).filter (fun x => isWeekend P x.1))
        workDays := 0 + (workedDays P year month (columnsOf sheet i)).length } =
      reportRowSpec P year month sheet i := by
  unfold rowOfTotals reportRowSpec
  simp only [Nat.zero_add]
  by_cases h0 : (workedDays P year month (columnsOf sheet i)).length = 0
  · simp [h0]
  · have hpos : 0 < (workedDays P year month (columnsOf sheet i)).length := by omega
    simp [h0, hpos]

theorem reportRows_wellFormed (P : Platform) (year month : ℤ) (sheet : Sheet)
    (hwf : ∀ r c, 2 ≤ r → 2 ≤ c → WellFormedCell (sheet.getValue r c)) :
    ∀ rows : List Nat, reportRows P year month sheet rows =
      some (rows.filterMap (fun i =>
        if sheet.getValue (i + 2) 1 = [] then none
        else some (reportRowSpec P year month sheet i))) := by
  intro rows
  induction rows with
  | nil => simp [reportRows]
  | cons i rest ih =>
    unfold reportRows
    by_cases hname : sheet.getValue (i + 2) 1 = []
    · simp only [hname, if_true]
      rw [ih]
      simp [hname]
    · simp only [hname, if_false]
      have hcols : ∀ hv, hv ∈ columnsOf sheet i → WellFormedCell hv.2 := by
        intro hv hmem
        unfold columnsOf at hmem
        simp only [List.mem_map, List.mem_range] at hmem
        obtain ⟨k, _, rfl⟩ := hmem
        exact hwf (i + 2) (k + 2) (by omega) (by omega)
      rw [scanColumns_wellFormed P year month (columnsOf sheet i) ⟨some 0, some 0, 0⟩ hcols, ih]
      simp only [Option.map_some']
      rw [rowOfTotals_spec]
      simp [hname]

/-- C7. On a sheet whose attendance cells are well formed, `generateMonthlyReport` writes,
for every row with a name: as work days the number of date columns of the year
and month whose cell has both an arrival and a departure other than `-`; as total
hours the sum of `calculateHours` over those cells, rounded to one decimal; as
weekend hours the same sum over the Saturdays and Sundays among them; as average
the total divided by the work days, rounded to one decimal, and 0 with no work
day. For one Wednesday with 09:00 to 18:00 the row is 9, 0, 1, 9. -/
theorem generateMonthlyReport_spec (P : Platform) (sheet : Sheet) (year month : ℤ)
    (hwf : ∀ r c, 2 ≤ r → 2 ≤ c → WellFormedCell (sheet.getValue r c)) :
    generateMonthlyReport P sheet year month = some (reportSpec P sheet year month) ∧
    (newDate moscow (stripDayName "Ср 2025-06-25".toList)).map
        (fun t => weekdayOf (dayNumber moscow.zone t)) = some 3 ∧
    generateMonthlyReport moscow wednesdaySheet 2025 6 =
      some [{ employeeName := "Иванов".toList, totalHours := some 9, weekendHours := some 0,
              workDays := 1, average := some 9 }] := by
  refine ⟨?_, by decide, by decide!⟩
  unfold generateMonthlyReport reportSpec
  exact reportRows_wellFormed P year month sheet hwf _

theorem wednesdaySheet_wellFormed :
    ∀ r c, 2 ≤ r → 2 ≤ c → WellFormedCell (wednesdaySheet.getValue r c) := by
  intro r c hr hc
  by_cases h : r = 2 ∧ c = 2
  · obtain ⟨rfl, rfl⟩ := h
    exact Or.inr ⟨"09:00".toList, "18:00".toList, by decide, Or.inl (by decide), by decide⟩
  · left
    unfold Sheet.getValue
    rw [if_neg]
    have h1 : wednesdaySheet.rows = 2 := by decide
    have h2 : wednesdaySheet.cols = 2 := by decide
    rw [h1, h2]
    omega

theorem generateMonthlyReport_spec_witness :
    generateMonthlyReport moscow wednesdaySheet 2025 6 =
      some (reportSpec moscow wednesdaySheet 2025 6) ∧
    (newDate moscow (stripDayName "Ср 2025-06-25".toList)).map
        (fun t => weekdayOf (dayNumber moscow.zone t)) = some 3 ∧
    generateMonthlyReport moscow wednesdaySheet 2025 6 =
      some [{ employeeName := "Иванов".toList, totalHours := some 9, weekendHours := some 0,
              workDays := 1, average := some 9 }] :=
  generateMonthlyReport_spec moscow wednesdaySheet 2025 6 wednesdaySheet_wellFormed

end SKUD
